import Mathlib

/-!
# postmark.go — message marshalling and the HTTP client

A shallow embedding of `postmark/postmark.go`.

Conventions of the embedding:

* a Go `string` is a Lean `String` (the embedding covers strings holding valid UTF-8);
* a `[]byte` is a `List Byte`;
* a Go function returning `(T, error)` returns an `Outcome T`: a value with a nil error,
  a non-nil error with the zero value, or a run-time panic;
* `[]byte` holding JSON text is represented by the JSON value it denotes (`Json`), members of an
  object kept in the order in which they are written;
* a nil pointer is `none`;
* the Go type `int` has 64 bits;
* an `io.Reader` is represented by what one full read of it finds; that two fields may share one
  reader is not represented.

The standard-library functions the program calls (`net/mail`, `strings`, `encoding/base64`,
`encoding/json`, `net/url`) are embedded next to the program's own functions, under their Go names.
-/

set_option linter.dupNamespace false

namespace Postmark

/-! ## Errors and outcomes -/

/-- A byte. -/
abbrev Byte := Fin 256

/-- Go `error` values that can arise in the program. -/
inductive GoError where
  /-- an error returned by the `Read` method of an `io.Reader` -/
  | read (msg : String)
  /-- `*json.MarshalerError`: a `MarshalJSON` method of type `typ` returned `inner` -/
  | marshaler (typ : String) (inner : GoError)
  /-- `*json.UnsupportedTypeError` / `*json.UnsupportedValueError` -/
  | unsupportedType (typ : String)
  /-- the error of `http.NewRequest` -/
  | newRequest (msg : String)
  /-- the error of `(*http.Client).Do` -/
  | transport (msg : String)
  /-- `*json.SyntaxError`, `io.EOF` or a read error while reading a JSON value -/
  | malformedJSON
  /-- `*json.UnmarshalTypeError`: JSON `value` cannot be stored in Go type `typ` -/
  | unmarshalType (value : String) (typ : String)
  /-- `*json.InvalidUnmarshalError`: the argument of `Decode` is not a non-nil pointer -/
  | invalidUnmarshal (typ : String)
  deriving DecidableEq, Repr

/-- The errors that `errors.Unwrap` reaches from an error, the error itself first. -/
def GoError.chain : GoError → List GoError
  | .marshaler typ inner => .marshaler typ inner :: inner.chain
  | e => [e]

/-- The result of a Go call of type `(T, error)`. -/
inductive Outcome (α : Type) where
  /-- the call returns `(v, nil)` -/
  | ret (v : α)
  /-- the call returns the zero value of `T` (nil for pointers and slices) and the error `e` -/
  | err (e : GoError)
  /-- the call does not return: a run-time panic unwinds the goroutine -/
  | panicked (msg : String)
  deriving DecidableEq, Repr

/-- Sequencing of Go statements: an error return or a panic ends the function. -/
def Outcome.bind {α β : Type} (x : Outcome α) (f : α → Outcome β) : Outcome β :=
  match x with
  | .ret v => f v
  | .err e => .err e
  | .panicked msg => .panicked msg

instance : Monad Outcome where
  pure := Outcome.ret
  bind := Outcome.bind

/-- The message of Go's nil-dereference panic. -/
def nilDeref : String := "runtime error: invalid memory address or nil pointer dereference"

/-! ## JSON values -/

/-- A JSON value. Integer number literals are `num`; a number literal with a fraction or an
exponent is `real`, kept as its text. -/
inductive Json where
  | null
  | bool (b : Bool)
  | num (n : Int)
  | real (lit : String)
  | str (s : String)
  | arr (xs : List Json)
  | obj (ms : List (String × Json))
  deriving Repr

/-- The value of the first member called `key` of a JSON object. -/
def Json.member (j : Json) (key : String) : Option Json :=
  match j with
  | .obj ms => ms.lookup key
  | _ => none

/-- The member names of a JSON object, in order. -/
def Json.keys (j : Json) : List String :=
  match j with
  | .obj ms => ms.map Prod.fst
  | _ => []

/-! ## Bytes and text (`unicode/utf8`) -/

/-- The byte with value `n mod 256`. -/
def byteOf (n : Nat) : Byte := ⟨n % 256, Nat.mod_lt _ (by decide)⟩

/-- The UTF-8 encoding of a rune (`utf8.AppendRune`). -/
def utf8Encode (c : Char) : List Byte :=
  let n := c.toNat
  if n < 0x80 then [byteOf n]
  else if n < 0x800 then [byteOf (0xC0 + n / 64), byteOf (0x80 + n % 64)]
  else if n < 0x10000 then
    [byteOf (0xE0 + n / 4096), byteOf (0x80 + n / 64 % 64), byteOf (0x80 + n % 64)]
  else
    [byteOf (0xF0 + n / 262144), byteOf (0x80 + n / 4096 % 64), byteOf (0x80 + n / 64 % 64),
      byteOf (0x80 + n % 64)]

/-- The bytes of a Go string. -/
def bytesOfString (s : String) : List Byte := s.data.flatMap utf8Encode

/-- The replacement rune U+FFFD (`utf8.RuneError`). -/
def RuneError : Char := Char.ofNat 0xFFFD

/-- Whether `b` is a continuation byte (`locb ≤ b ≤ hicb`). -/
def isCont (b : Nat) : Bool := 0x80 ≤ b && b ≤ 0xBF

/-- The function `utf8.DecodeRune` on a non-empty input: the first rune and its width in bytes;
invalid input gives `(RuneError, 1)`. -/
def DecodeRune (p : List Byte) : Char × Nat :=
  match p with
  | [] => (RuneError, 0)
  | p0 :: rest =>
    let b0 := p0.val
    if b0 < 0x80 then (Char.ofNat b0, 1)
    else if 0xC2 ≤ b0 && b0 ≤ 0xDF then
      match rest with
      | b1 :: _ =>
        if isCont b1.val then (Char.ofNat (b0 % 32 * 64 + b1.val % 64), 2) else (RuneError, 1)
      | _ => (RuneError, 1)
    else if 0xE0 ≤ b0 && b0 ≤ 0xEF then
      let lo := if b0 = 0xE0 then 0xA0 else 0x80
      let hi := if b0 = 0xED then 0x9F else 0xBF
      match rest with
      | b1 :: b2 :: _ =>
        if b1.val < lo || hi < b1.val then (RuneError, 1)
        else if !isCont b2.val then (RuneError, 1)
        else (Char.ofNat (b0 % 16 * 4096 + b1.val % 64 * 64 + b2.val % 64), 3)
      | _ => (RuneError, 1)
    else if 0xF0 ≤ b0 && b0 ≤ 0xF4 then
      let lo := if b0 = 0xF0 then 0x90 else 0x80
      let hi := if b0 = 0xF4 then 0x8F else 0xBF
      match rest with
      | b1 :: b2 :: b3 :: _ =>
        if b1.val < lo || hi < b1.val then (RuneError, 1)
        else if !isCont b2.val then (RuneError, 1)
        else if !isCont b3.val then (RuneError, 1)
        else
          (Char.ofNat (b0 % 8 * 262144 + b1.val % 64 * 4096 + b2.val % 64 * 64 + b3.val % 64), 4)
      | _ => (RuneError, 1)
    else (RuneError, 1)

/-- The loop `for i < len(p) { r, size := DecodeRune(p[i:]); i += size }` collecting the runes;
`fuel` bounds the number of iterations. -/
def decodeRunes : Nat → List Byte → List Char
  | 0, _ => []
  | fuel + 1, p =>
    match p with
    | [] => []
    | _ :: _ => (DecodeRune p).1 :: decodeRunes fuel (p.drop (DecodeRune p).2)

/-- The text a `[]byte` denotes once converted with `string(b)` and written by `encoding/json`:
every byte that is not part of a valid UTF-8 sequence becomes U+FFFD. -/
def stringOfBytes (p : List Byte) : String := String.mk (decodeRunes p.length p)

/-! ## `strings` -/

/-- The function `strings.Join`. -/
def Join (elems : List String) (sep : String) : String :=
  match elems with
  | [] => ""
  | [e] => e
  | e :: rest => rest.foldl (fun b s => b ++ sep ++ s) e

/-- The function `strings.LastIndex(s, "@")` as a split: the text before and after the last `@`,
or `none` when there is none (index `-1`). -/
def cutLastAt (s : String) : Option (String × String) :=
  let (after, before) := s.data.reverse.span (fun c => c != '@')
  match before with
  | [] => none
  | _ :: b => some (String.mk b.reverse, String.mk after.reverse)

/-- The function `strings.ContainsAny`. -/
def ContainsAny (s chars : String) : Bool := s.data.any (fun c => chars.data.contains c)

/-! ## `net/mail` -/

/-- The type `mail.Address`. -/
structure Address where
  Name : String := ""
  Address : String
  deriving DecidableEq, Repr

/-- The functions `mime.BEncoding.Encode("utf-8", ·)` (`b = true`) and
`mime.QEncoding.Encode("utf-8", ·)`, together with the iteration order of `range` over a map,
which the language leaves unspecified: `mapOrder` lists the entries of a map in the order in which
one execution of `range` visits them. -/
structure Runtime where
  mapOrder : List (String × List String) → List (String × List String)
  encodeWord : Bool → String → String

/-- An iteration order visits every entry of the map exactly once. -/
def Runtime.Valid (rt : Runtime) : Prop := ∀ l, (rt.mapOrder l).Perm l

/-- The function `isMultibyte` of `net/mail`. -/
def isMultibyte (r : Char) : Bool := 0x80 ≤ r.toNat

/-- The function `isVchar` of `net/mail`. -/
def isVchar (r : Char) : Bool := ('!'.toNat ≤ r.toNat && r.toNat ≤ '~'.toNat) || isMultibyte r

/-- The function `isWSP` of `net/mail`. -/
def isWSP (r : Char) : Bool := r == ' ' || r == '\t'

/-- The function `isQtext` of `net/mail`. -/
def isQtext (r : Char) : Bool :=
  if r == '\\' || r == '"' then false else isVchar r

/-- The function `isAtext` of `net/mail`. -/
def isAtext (r : Char) (dot : Bool) : Bool :=
  if r == '.' then dot
  else if "()<>[]:;@\\,\"".data.contains r then false
  else isVchar r

/-- The function `quoteString` of `net/mail`. -/
def quoteString (s : String) : String :=
  String.mk ('"' :: s.data.flatMap (fun r =>
    if isQtext r || isWSP r then [r] else if isVchar r then ['\\', r] else []) ++ ['"'])

/-- The loop of `(*Address).String` that decides whether the local part needs quotes; `prev` is
the rune before the current one, if any. -/
def quoteLocal (prev : Option Char) : List Char → Bool
  | [] => false
  | r :: rest =>
    if isAtext r false then quoteLocal (some r) rest
    else if r == '.' && (prev.isSome && prev != some '.' && !rest.isEmpty) then
      quoteLocal (some r) rest
    else true

/-- The string `s` of `(*Address).String`: the address between angle brackets, its local part
quoted when it has to be. -/
def Address.angleAddr (a : Postmark.Address) : String :=
  let (loc, domain) :=
    match cutLastAt a.Address with
    | none => (a.Address, "")
    | some p => p
  let loc := if quoteLocal none loc.data then quoteString loc else loc
  "<" ++ loc ++ "@" ++ domain ++ ">"

/-- The method `(*mail.Address).String`. -/
def Address.String (rt : Runtime) (a : Postmark.Address) : String :=
  let s := a.angleAddr
  if a.Name = "" then s
  else if a.Name.data.all (fun r => !((!isVchar r && !isWSP r) || isMultibyte r)) then
    quoteString a.Name ++ " " ++ s
  else if ContainsAny a.Name "\"#$%&\x27(),.:;<>@[]^\x60\x7b|\x7d~" then
    rt.encodeWord true a.Name ++ " " ++ s
  else rt.encodeWord false a.Name ++ " " ++ s

/-! ## `encoding/base64` -/

/-- The alphabet of `base64.StdEncoding`. -/
def base64.encodeStd : String := "ABCDEFGHIJKLMNOPQRSTUVWXYZabcdefghijklmnopqrstuvwxyz0123456789+/"

/-- The table lookup `enc.encode[i]`. -/
def base64.encodeChar (i : Nat) : Char := base64.encodeStd.data.getD i 'A'

/-- The table lookup `enc.decodeMap[c]`, `none` for a character outside the alphabet. -/
def base64.decodeChar (c : Char) : Option Nat :=
  let i := base64.encodeStd.data.indexOf c
  if i < 64 then some i else none

/-- The method `(*Encoding).Encode` of `base64.StdEncoding`. -/
def base64.Encode : List Byte → List Char
  | b0 :: b1 :: b2 :: rest =>
    let val := b0.val * 65536 + b1.val * 256 + b2.val
    encodeChar (val / 262144 % 64) :: encodeChar (val / 4096 % 64) ::
      encodeChar (val / 64 % 64) :: encodeChar (val % 64) :: Encode rest
  | [b0, b1] =>
    let val := b0.val * 65536 + b1.val * 256
    [encodeChar (val / 262144 % 64), encodeChar (val / 4096 % 64), encodeChar (val / 64 % 64), '=']
  | [b0] =>
    let val := b0.val * 65536
    [encodeChar (val / 262144 % 64), encodeChar (val / 4096 % 64), '=', '=']
  | [] => []

/-- The method `base64.StdEncoding.EncodeToString`. -/
def base64.EncodeToString (src : List Byte) : String := String.mk (base64.Encode src)

/-- Decoding of the quanta of a padded base64 text (newlines already removed). -/
def base64.decodeQuanta : List Char → Option (List Byte)
  | [] => some []
  | c0 :: c1 :: c2 :: c3 :: rest =>
    if c3 = '=' then
      if !rest.isEmpty then none
      else if c2 = '=' then
        match decodeChar c0, decodeChar c1 with
        | some d0, some d1 => some [byteOf ((d0 * 262144 + d1 * 4096) / 65536)]
        | _, _ => none
      else
        match decodeChar c0, decodeChar c1, decodeChar c2 with
        | some d0, some d1, some d2 =>
          let val := d0 * 262144 + d1 * 4096 + d2 * 64
          some [byteOf (val / 65536), byteOf (val / 256)]
        | _, _, _ => none
    else
      match decodeChar c0, decodeChar c1, decodeChar c2, decodeChar c3, decodeQuanta rest with
      | some d0, some d1, some d2, some d3, some tail =>
        let val := d0 * 262144 + d1 * 4096 + d2 * 64 + d3
        some (byteOf (val / 65536) :: byteOf (val / 256) :: byteOf val :: tail)
      | _, _, _, _, _ => none
  | _ => none

/-- The method `base64.StdEncoding.DecodeString`: `none` stands for a `CorruptInputError`. -/
def base64.DecodeString (s : String) : Option (List Byte) :=
  decodeQuanta (s.data.filter (fun c => c != '\r' && c != '\n'))

/-! ## `net/url` -/

/-- The type `url.URL`, with the fields the program sets; every other field (`Opaque`, `User`,
`RawPath`, `RawQuery`, `Fragment`, ...) keeps its zero value. -/
structure URL where
  Scheme : String := ""
  Host : String := ""
  Path : String := ""
  deriving DecidableEq, Repr

/-- The escaping modes of `net/url` that rendering such a URL uses. -/
inductive encoding where
  | encodePath
  | encodeHost
  deriving DecidableEq, Repr

/-- Whether byte `c` is the code of one of the characters of `chars`. -/
def byteIn (c : Nat) (chars : String) : Bool := chars.data.any (fun x => x.toNat == c)

/-- The function `shouldEscape` of `net/url`, for the two modes above. -/
def shouldEscape (c : Nat) (mode : encoding) : Bool :=
  if ('a'.toNat ≤ c && c ≤ 'z'.toNat) || ('A'.toNat ≤ c && c ≤ 'Z'.toNat)
      || ('0'.toNat ≤ c && c ≤ '9'.toNat) then false
  else if mode = .encodeHost && byteIn c "!$&\x27()*+,;=:[]<>\"" then false
  else if byteIn c "-_.~" then false
  else if byteIn c "$&+,/:;=?@" && mode = .encodePath then c == '?'.toNat
  else true

/-- The table `upperhex` of `net/url`. -/
def upperhex (n : Nat) : Char := "0123456789ABCDEF".data.getD n '0'

/-- The function `escape` of `net/url`, for the two modes above. -/
def escape (s : String) (mode : encoding) : String :=
  String.mk ((bytesOfString s).flatMap (fun c =>
    if shouldEscape c.val mode then ['%', upperhex (c.val / 16), upperhex (c.val % 16)]
    else [Char.ofNat c.val]))

/-- The method `(*URL).EscapedPath`, `RawPath` being empty. -/
def URL.EscapedPath (u : URL) : String :=
  if u.Path = "*" then "*" else escape u.Path .encodePath

/-- The method `(*URL).String`, the fields not listed in `URL` being zero. -/
def URL.String (u : URL) : String :=
  let buf := if u.Scheme ≠ "" then u.Scheme ++ ":" else ""
  let buf :=
    if u.Scheme ≠ "" ∨ u.Host ≠ "" then
      let buf := if u.Host ≠ "" ∨ u.Path ≠ "" then buf ++ "//" else buf
      if u.Host ≠ "" then buf ++ escape u.Host .encodeHost else buf
    else buf
  let path := u.EscapedPath
  let buf := if path ≠ "" ∧ path.data.head? ≠ some '/' ∧ u.Host ≠ "" then buf ++ "/" else buf
  let buf :=
    if buf = "" ∧ (path.data.takeWhile (fun c => c != '/')).contains ':' then buf ++ "./" else buf
  buf ++ path

/-! ## `encoding/json`: marshalling -/

/-- The function `parseTag` of `encoding/json`: the tag cut at its first comma. -/
def parseTag (tag : String) : String × String :=
  let (name, rest) := tag.data.span (fun c => c != ',')
  (String.mk name, String.mk (rest.drop 1))

/-- The method `tagOptions.Contains`: whether the comma-separated options hold `optionName`. -/
def tagOptionsContains (opts : List Char) (cur : List Char) (optionName : String) : Bool :=
  match opts with
  | [] => String.mk cur.reverse = optionName
  | c :: rest =>
    if c = ',' then
      String.mk cur.reverse = optionName || tagOptionsContains rest [] optionName
    else tagOptionsContains rest (c :: cur) optionName

/-- The function `isValidTag` of `encoding/json` (letters and digits of ASCII). -/
def isValidTag (s : String) : Bool :=
  s ≠ "" && s.data.all (fun c =>
    "!#$%&()*+-./:;<=>?@[]^_\x7b|\x7d~ ".data.contains c || c.isAlphanum)

/-- One field of a struct as `encoding/json` sees it: its Go name, its `json` struct tag, whether
its value is empty (`isEmptyValue`), and the encoding of its value. -/
structure Field where
  name : String
  tag : String
  isEmptyValue : Bool
  value : Outcome Json

/-- The JSON member name of a field: the name given in the tag if there is a valid one, the Go
field name otherwise. -/
def Field.key (f : Field) : String :=
  if isValidTag (parseTag f.tag).1 then (parseTag f.tag).1 else f.name

/-- Whether the tag of the field carries the option `omitempty`. -/
def Field.omitEmpty (f : Field) : Bool :=
  (parseTag f.tag).2 ≠ "" && tagOptionsContains (parseTag f.tag).2.data [] "omitempty"

/-- The struct encoder of `encoding/json`: the members of the object, field by field; the first
field whose value fails ends the encoding. -/
def structEncoder : List Field → Outcome (List (String × Json))
  | [] => .ret []
  | f :: fs =>
    if f.omitEmpty && f.isEmptyValue then structEncoder fs
    else
      match f.value with
      | .ret v =>
        match structEncoder fs with
        | .ret ms => .ret ((f.key, v) :: ms)
        | .err e => .err e
        | .panicked msg => .panicked msg
      | .err e => .err e
      | .panicked msg => .panicked msg

/-- The function `json.Marshal` on a struct. -/
def marshalStruct (fields : List Field) : Outcome Json :=
  match structEncoder fields with
  | .ret ms => .ret (.obj ms)
  | .err e => .err e
  | .panicked msg => .panicked msg

/-- A Go value held in an `interface{}`, as far as `encoding/json` tells values apart: a value it
renders as the JSON value `j`, or a value it rejects (a channel, a function, a complex number, a
NaN, or a container of one) with the Go type `typ`. -/
inductive GoValue where
  | json (j : Json)
  | unsupported (typ : String)
  deriving Repr

/-- The encoder of `encoding/json` for the members of a `map[string]interface{}`, already in the
order of their keys. -/
def mapMembers : List (String × GoValue) → Outcome (List (String × Json))
  | [] => .ret []
  | (k, .json j) :: rest =>
    match mapMembers rest with
    | .ret ms => .ret ((k, j) :: ms)
    | .err e => .err e
    | .panicked msg => .panicked msg
  | (_, .unsupported typ) :: _ => .err (.unsupportedType typ)

/-- The encoder of `encoding/json` for a `map[string]interface{}`: `null` for a nil map, otherwise
an object whose members are sorted by key. -/
def mapEncoder (m : Option (List (String × GoValue))) : Outcome Json :=
  match m with
  | none => .ret .null
  | some kvs =>
    match mapMembers (kvs.insertionSort (fun a b => a.1 ≤ b.1)) with
    | .ret ms => .ret (.obj ms)
    | .err e => .err e
    | .panicked msg => .panicked msg

/-! ## Streams -/

/-- An `io.Reader` as one full read finds it: the bytes it yields, and the error that ends the
read if it ends with one other than `io.EOF`. -/
structure Reader where
  data : List Byte
  err : Option GoError := none
  deriving DecidableEq, Repr

/-- The function `strings.NewReader`. -/
def NewReader (s : String) : Reader := { data := bytesOfString s }

/-- The function `ioutil.ReadAll`; a nil reader makes the call of its `Read` method panic. -/
def ReadAll (r : Option Reader) : Outcome (List Byte) :=
  match r with
  | none => .panicked nilDeref
  | some r =>
    match r.err with
    | none => .ret r.data
    | some e => .err e

/-! ## The program: `Attachment` and `Message` -/

/-- The type `Attachment`. -/
structure Attachment where
  Name : String := ""
  Content : Option Reader := none
  ContentType : String := ""
  deriving DecidableEq, Repr

/-- The method `(*Attachment).MarshalJSON`. -/
def Attachment.MarshalJSON (a : Attachment) : Outcome Json :=
  match ReadAll a.Content with
  | .ret content =>
    marshalStruct [
      { name := "Name", tag := "", isEmptyValue := a.Name = "", value := .ret (.str a.Name) },
      { name := "Content", tag := "", isEmptyValue := base64.EncodeToString content = "",
        value := .ret (.str (base64.EncodeToString content)) },
      { name := "ContentType", tag := "", isEmptyValue := a.ContentType = "",
        value := .ret (.str a.ContentType) }]
  | .err e => .err e
  | .panicked msg => .panicked msg

/-- The type `Message`. A nil slice of addresses is the empty list; `Headers` holds the entries of
the map, each name once, in the order in which they were inserted. -/
structure Message where
  From : Option Address := none
  To : List (Option Address) := []
  Cc : List (Option Address) := []
  Bcc : List (Option Address) := []
  Subject : String := ""
  Tag : String := ""
  HtmlBody : Option Reader := none
  TextBody : Option Reader := none
  TemplateId : Int := 0
  TemplateModel : Option (List (String × GoValue)) := none
  ReplyTo : Option Address := none
  Headers : List (String × List String) := []
  Attachments : Option (List Attachment) := none

/-- The call `addr.String()` on a `*mail.Address`: a nil pointer is dereferenced. -/
def ptrString (rt : Runtime) (addr : Option Address) : Outcome String :=
  match addr with
  | none => .panicked nilDeref
  | some a => .ret (a.String rt)

/-- The loop `for _, addr := range addrs { out = append(out, addr.String()) }`. -/
def addrStrings (rt : Runtime) : List (Option Address) → Outcome (List String)
  | [] => .ret []
  | addr :: rest =>
    match ptrString rt addr with
    | .ret s =>
      match addrStrings rt rest with
      | .ret ss => .ret (s :: ss)
      | .err e => .err e
      | .panicked msg => .panicked msg
    | .err e => .err e
    | .panicked msg => .panicked msg

/-- The block `if body != nil { b, err := ioutil.ReadAll(body); ...; doc.Body = string(b) }`. -/
def readBody (body : Option Reader) : Outcome String :=
  match body with
  | none => .ret ""
  | some r =>
    match ReadAll (some r) with
    | .ret b => .ret (stringOfBytes b)
    | .err e => .err e
    | .panicked msg => .panicked msg

/-- The loop over `m.Headers` that builds `headers`, the map entries taken in the order `entries`:
one `map[string]string{"Name": k, "Value": v}` for each value, which `encoding/json` writes with
its keys sorted. -/
def headerDocs (entries : List (String × List String)) : List Json :=
  entries.flatMap (fun kvs => kvs.2.map (fun v => .obj [("Name", .str kvs.1), ("Value", .str v)]))

/-- The encoder of `encoding/json` for the elements of a `[]Attachment`: the elements are
addressable, so each is written by `(*Attachment).MarshalJSON`, an error of which comes back as a
`*json.MarshalerError`. -/
def attachmentDocs : List Attachment → Outcome (List Json)
  | [] => .ret []
  | a :: rest =>
    match a.MarshalJSON with
    | .ret j =>
      match attachmentDocs rest with
      | .ret js => .ret (j :: js)
      | .err e => .err e
      | .panicked msg => .panicked msg
    | .err e => .err (.marshaler "postmark.Attachment" e)
    | .panicked msg => .panicked msg

/-- The encoder of `encoding/json` for a `[]Attachment`: `null` for a nil slice. -/
def attachmentsEncoder (as : Option (List Attachment)) : Outcome Json :=
  match as with
  | none => .ret .null
  | some l =>
    match attachmentDocs l with
    | .ret js => .ret (.arr js)
    | .err e => .err e
    | .panicked msg => .panicked msg

/-- The struct `doc` of `(*Message).MarshalJSON` as `json.Marshal` sees it, with its struct tags. -/
def Message.doc (m : Message) (sender tos ccs bccs htmlBody textBody replyTo : String)
    (headers : List Json) : List Field := [
  { name := "From", tag := "", isEmptyValue := sender = "", value := .ret (.str sender) },
  { name := "To", tag := "", isEmptyValue := tos = "", value := .ret (.str tos) },
  { name := "Cc", tag := "", isEmptyValue := ccs = "", value := .ret (.str ccs) },
  { name := "Bcc", tag := "", isEmptyValue := bccs = "", value := .ret (.str bccs) },
  { name := "Subject", tag := ",omitempty", isEmptyValue := m.Subject = "",
    value := .ret (.str m.Subject) },
  { name := "Tag", tag := "", isEmptyValue := m.Tag = "", value := .ret (.str m.Tag) },
  { name := "HtmlBody", tag := ",omitempty", isEmptyValue := htmlBody = "",
    value := .ret (.str htmlBody) },
  { name := "TextBody", tag := ",omitempty", isEmptyValue := textBody = "",
    value := .ret (.str textBody) },
  { name := "TemplateId", tag := ",omitempty", isEmptyValue := m.TemplateId = 0,
    value := .ret (.num m.TemplateId) },
  { name := "TemplateModel", tag := "",
    isEmptyValue := m.TemplateModel.all (fun kvs => kvs.isEmpty),
    value := mapEncoder m.TemplateModel },
  { name := "ReplyTo", tag := "", isEmptyValue := replyTo = "", value := .ret (.str replyTo) },
  { name := "Headers", tag := "", isEmptyValue := headers.isEmpty, value := .ret (.arr headers) },
  { name := "Attachments", tag := "omitempty",
    isEmptyValue := m.Attachments.all (fun l => l.isEmpty),
    value := attachmentsEncoder m.Attachments }]

/-- The method `(*Message).MarshalJSON`. -/
def Message.MarshalJSON (rt : Runtime) (m : Message) : Outcome Json :=
  match ptrString rt m.From with
  | .ret sender =>
    match addrStrings rt m.To with
    | .ret tos =>
      match addrStrings rt m.Cc with
      | .ret ccs =>
        match addrStrings rt m.Bcc with
        | .ret bccs =>
          match readBody m.HtmlBody with
          | .ret htmlBody =>
            match readBody m.TextBody with
            | .ret textBody =>
              let replyTo :=
                match m.ReplyTo with
                | some a => a.String rt
                | none => ""
              let headers := headerDocs (rt.mapOrder m.Headers)
              marshalStruct
                (m.doc sender (Join tos ", ") (Join ccs ", ") (Join bccs ", ") htmlBody textBody
                  replyTo headers)
            | .err e => .err e
            | .panicked msg => .panicked msg
          | .err e => .err e
          | .panicked msg => .panicked msg
        | .err e => .err e
        | .panicked msg => .panicked msg
      | .err e => .err e
      | .panicked msg => .panicked msg
    | .err e => .err e
    | .panicked msg => .panicked msg
  | .err e => .err e
  | .panicked msg => .panicked msg

/-! ## `encoding/json`: unmarshalling into `Result` -/

/-- The type `Result`. -/
structure Result where
  ErrorCode : Int := 0
  Message : String := ""
  MessageID : String := ""
  SubmittedAt : String := ""
  To : String := ""
  deriving DecidableEq, Repr

/-- The function `foldRune` of `encoding/json` as far as it can reach an ASCII letter: a small
ASCII letter, the long s (U+017F) and the Kelvin sign (U+212A) fold to a capital ASCII letter;
any other rune stays outside ASCII. -/
def foldRune (c : Char) : Char :=
  if c.toNat = 0x17F then 'S'
  else if c.toNat = 0x212A then 'K'
  else if 'a'.toNat ≤ c.toNat ∧ c.toNat ≤ 'z'.toNat then Char.ofNat (c.toNat - 32)
  else c

/-- The function `foldName` of `encoding/json`. -/
def foldName (s : String) : String := String.mk (s.data.map foldRune)

/-- The exported fields of `Result`, in order. -/
def Result.fields : List String := ["ErrorCode", "Message", "MessageID", "SubmittedAt", "To"]

/-- The field of `Result` that an object key selects: the field of that very name, or else the
first one whose folded name is the folded key. -/
def Result.fieldFor (key : String) : Option String :=
  if Result.fields.contains key then some key
  else Result.fields.find? (fun f => foldName f == foldName key)

/-- Whether an integer fits the Go type `int` (64 bits). -/
def fitsInt (n : Int) : Bool := decide (-(2 ^ 63 : Int) ≤ n) && decide (n < (2 ^ 63 : Int))

/-- The name `encoding/json` gives the kind of a JSON value in an `UnmarshalTypeError`. -/
def Json.kind : Json → String
  | .null => "null"
  | .bool _ => "bool"
  | .num _ => "number"
  | .real _ => "number"
  | .str _ => "string"
  | .arr _ => "array"
  | .obj _ => "object"

/-- Storing the JSON value `v` into field `field` of `r`: `null` leaves the field as it is, a value
of the wrong kind or out of range leaves it as it is and reports an `UnmarshalTypeError`. -/
def Result.store (r : Result) (field : String) (v : Json) : Result × Option GoError :=
  match v with
  | .null => (r, none)
  | .num n =>
    if field = "ErrorCode" then
      if fitsInt n then ({ r with ErrorCode := n }, none)
      else (r, some (.unmarshalType "number" "int"))
    else (r, some (.unmarshalType "number" "string"))
  | .str s =>
    if field = "Message" then ({ r with Message := s }, none)
    else if field = "MessageID" then ({ r with MessageID := s }, none)
    else if field = "SubmittedAt" then ({ r with SubmittedAt := s }, none)
    else if field = "To" then ({ r with To := s }, none)
    else (r, some (.unmarshalType "string" "int"))
  | v => (r, some (.unmarshalType v.kind (if field = "ErrorCode" then "int" else "string")))

/-- The first error of a decoding is the one reported (`saveError`). -/
def saveError (saved new : Option GoError) : Option GoError :=
  match saved with
  | some e => some e
  | none => new

/-- The loop of `(*decodeState).object` over the members of a JSON object, storing into `r`. -/
def Result.storeMembers (r : Result) (saved : Option GoError) :
    List (String × Json) → Result × Option GoError
  | [] => (r, saved)
  | (key, v) :: rest =>
    match Result.fieldFor key with
    | none => Result.storeMembers r saved rest
    | some field =>
      Result.storeMembers (r.store field v).1 (saveError saved (r.store field v).2) rest

/-- Unmarshalling of a JSON value into the `Result` that a non-nil `*Result` points to. -/
def unmarshalResult (j : Json) (r : Result) : Result × Option GoError :=
  match j with
  | .null => (r, none)
  | .obj ms => r.storeMembers none ms
  | v => (r, some (.unmarshalType v.kind "postmark.Result"))

/-- Unmarshalling of the elements of a JSON array into the elements of a `[]*Result`: `null` sets
the element to nil, any other value is stored into the `Result` the element points to, a new one
if the element is nil or beyond the length of the slice. -/
def unmarshalElems (saved : Option GoError) :
    List Json → List (Option Result) → List (Option Result) × Option GoError
  | [], _ => ([], saved)
  | j :: js, cur =>
    let target : Result := (cur.head?.join).getD {}
    let elem : Option Result × Option GoError :=
      match j with
      | .null => (none, none)
      | v => (some (unmarshalResult v target).1, (unmarshalResult v target).2)
    ((elem.1 :: (unmarshalElems (saveError saved elem.2) js cur.tail).1),
      (unmarshalElems (saveError saved elem.2) js cur.tail).2)

/-- Unmarshalling of a JSON value into the `[]*Result` that a non-nil `*[]*Result` points to. -/
def unmarshalResults (j : Json) (cur : List (Option Result)) :
    List (Option Result) × Option GoError :=
  match j with
  | .null => ([], none)
  | .arr js => unmarshalElems none js cur
  | v => (cur, some (.unmarshalType v.kind "[]*postmark.Result"))

/-- What a `json.Decoder` finds in the stream it reads: no complete JSON value (the stream is
empty, fails, or does not hold JSON text), or a first JSON value `j`. -/
inductive Stream where
  | malformed
  | value (j : Json)
  deriving Repr

/-- The argument `v` of `(*Decoder).Decode(v)`: a non-nil pointer to a variable holding `target`,
or a value `held` that is not a pointer. -/
inductive DecodeArg (α : Type) where
  | pointer (target : α)
  | nonPointer (held : α)

/-- The method `(*json.Decoder).Decode`: the variable after the call, and the error returned. The
next value is read from the stream first; it is stored only through a non-nil pointer, any other
argument is refused with an `InvalidUnmarshalError` and left as it was. -/
def Decode {α : Type} (body : Stream) (unmarshal : Json → α → α × Option GoError)
    (typ : String) (v : DecodeArg α) : α × Option GoError :=
  match body, v with
  | .malformed, .pointer target => (target, some .malformedJSON)
  | .malformed, .nonPointer held => (held, some .malformedJSON)
  | .value _, .nonPointer held => (held, some (.invalidUnmarshal typ))
  | .value j, .pointer target => unmarshal j target

/-! ## `net/http` -/

/-- An `http.Request` as the program builds it. -/
structure Request where
  Method : String
  URL : String
  Header : List (String × String) := []
  Body : Json

/-- An `http.Response` as the program reads it. -/
structure Response where
  StatusCode : Nat
  Body : Stream

/-- The network side of a call: the verdict of `url.Parse` inside `http.NewRequest` on a URL
string (`none`: the string is accepted), and the answer of `(*http.Client).Do` to a request. -/
structure Network where
  Parse : String → Option GoError
  Do : Request → Except GoError Response

/-- The function `http.NewRequest`. -/
def NewRequest (net : Network) (method url : String) (body : Json) : Outcome Request :=
  match net.Parse url with
  | some e => .err e
  | none => .ret { Method := method, URL := url, Body := body }

/-- The method `http.Header.Set`. -/
def HeaderSet (h : List (String × String)) (key value : String) : List (String × String) :=
  h.filter (fun kv => kv.1 != key) ++ [(key, value)]

/-- The three calls `req.Header.Set(...)` of `Send` and `SendBatch`. -/
def setHeaders (req : Request) (apiKey : String) : Request :=
  { req with
    Header := HeaderSet (HeaderSet (HeaderSet req.Header "Accept" "application/json")
      "Content-Type" "application/json") "X-Postmark-Server-Token" apiKey }

/-! ## The program: `Client` -/

/-- The constant `DefaultHost`. -/
def DefaultHost : String := "api.postmarkapp.com"

/-- The type `Client`. -/
structure Client where
  ApiKey : String := ""
  Secure : Bool := false
  Host : String := ""
  deriving DecidableEq, Repr

/-- The method `(*Client).endpoint`. -/
def Client.endpoint (c : Client) (path : String) : URL :=
  let url : URL := {}
  let url := if c.Secure then { url with Scheme := "https" } else { url with Scheme := "http" }
  let url := if c.Host = "" then { url with Host := DefaultHost } else { url with Host := c.Host }
  { url with Path := path }

/-- The call `json.NewEncoder(&buf).Encode(msg)` on a `*Message`: a nil pointer is written as
`null`, any other by its `MarshalJSON` method, an error of which comes back as a
`*json.MarshalerError`. -/
def EncodeMessage (rt : Runtime) (msg : Option Message) : Outcome Json :=
  match msg with
  | none => .ret .null
  | some m =>
    match m.MarshalJSON rt with
    | .ret j => .ret j
    | .err e => .err (.marshaler "*postmark.Message" e)
    | .panicked s => .panicked s

/-- The elements of the array that `json.NewEncoder(&buf).Encode(msg)` writes for a
`[]*Message`. -/
def EncodeMessages (rt : Runtime) : List (Option Message) → Outcome (List Json)
  | [] => .ret []
  | m :: rest =>
    match EncodeMessage rt m with
    | .ret j =>
      match EncodeMessages rt rest with
      | .ret js => .ret (j :: js)
      | .err e => .err e
      | .panicked s => .panicked s
    | .err e => .err e
    | .panicked s => .panicked s

/-- What a call of `Send` or `SendBatch` does: the requests it hands to the HTTP client, in order,
and what it returns. -/
structure Exchange (α : Type) where
  requests : List Request
  result : Outcome α

/-- The method `(*Client).Send`, on a non-nil message. The result `ret r` stands for the return
of a non-nil pointer to `r` with a nil error; the error of `Decode` is dropped. -/
def Client.Send (rt : Runtime) (net : Network) (c : Client) (msg : Message) : Exchange Result :=
  match EncodeMessage rt (some msg) with
  | .err e => ⟨[], .err e⟩
  | .panicked s => ⟨[], .panicked s⟩
  | .ret buf =>
    let url := c.endpoint "email"
    let url := if msg.TemplateId ≠ 0 then c.endpoint "email/withTemplate" else url
    match NewRequest net "POST" url.String buf with
    | .err e => ⟨[], .err e⟩
    | .panicked s => ⟨[], .panicked s⟩
    | .ret req =>
      let req := setHeaders req c.ApiKey
      match net.Do req with
      | .error e => ⟨[req], .err e⟩
      | .ok resp =>
        let res : Result := {}
        ⟨[req], .ret (Decode resp.Body unmarshalResult "*postmark.Result" (.pointer res)).1⟩

/-- The method `(*Client).SendBatch`. The argument of `Decode` is the slice `res` itself; the
error of `Decode` is dropped. -/
def Client.SendBatch (rt : Runtime) (net : Network) (c : Client) (msg : List (Option Message)) :
    Exchange (List (Option Result)) :=
  match EncodeMessages rt msg with
  | .err e => ⟨[], .err e⟩
  | .panicked s => ⟨[], .panicked s⟩
  | .ret buf =>
    match NewRequest net "POST" (c.endpoint "email/batch").String (.arr buf) with
    | .err e => ⟨[], .err e⟩
    | .panicked s => ⟨[], .panicked s⟩
    | .ret req =>
      let req := setHeaders req c.ApiKey
      match net.Do req with
      | .error e => ⟨[req], .err e⟩
      | .ok resp =>
        let res : List (Option Result) := []
        ⟨[req],
          .ret (Decode resp.Body unmarshalResults "[]*postmark.Result" (.nonPointer res)).1⟩

/-- The JSON object `encoding/json` writes for a `Result`: what the vendor API answers. -/
def Result.toJson (r : Result) : Json :=
  .obj [("ErrorCode", .num r.ErrorCode), ("Message", .str r.Message),
    ("MessageID", .str r.MessageID), ("SubmittedAt", .str r.SubmittedAt), ("To", .str r.To)]


/-! ## Notions used to state the properties -/

/-- The value `replyTo` of `(*Message).MarshalJSON`. -/
def Message.replyTo (rt : Runtime) (m : Message) : String :=
  match m.ReplyTo with
  | some a => a.String rt
  | none => ""

/-- The members of the object that `json.Marshal` writes for the struct `doc`, given the values of
its fields: the fields tagged `,omitempty` are left out when empty. -/
def Message.members (m : Message) (sender tos ccs bccs htmlBody textBody replyTo : String)
    (templateModel : Json) (headers : List Json) (attachments : Json) : List (String × Json) :=
  [("From", .str sender), ("To", .str tos), ("Cc", .str ccs), ("Bcc", .str bccs)] ++
    (if m.Subject = "" then [] else [("Subject", .str m.Subject)]) ++
    [("Tag", .str m.Tag)] ++
    (if htmlBody = "" then [] else [("HtmlBody", .str htmlBody)]) ++
    (if textBody = "" then [] else [("TextBody", .str textBody)]) ++
    (if m.TemplateId = 0 then [] else [("TemplateId", .num m.TemplateId)]) ++
    [("TemplateModel", templateModel), ("ReplyTo", .str replyTo), ("Headers", .arr headers),
      ("omitempty", attachments)]

/-- A display name of printable ASCII characters, spaces and tabs, without `"` and `\`. -/
def plainName (s : String) : Bool :=
  s.data.all (fun r => (isQtext r || isWSP r) && !isMultibyte r)

/-- An email address with an `@` whose local part `(*Address).String` does not quote. -/
def plainEmail (s : String) : Bool :=
  match cutLastAt s with
  | some (loc, _) => !quoteLocal none loc.data
  | none => false

/-- The field `key` of the marshalled object `j` holds the addresses of the list `l`, serialized and
joined by `", "`: as many serialized addresses as the list has entries, a separator between any two
neighbours, in the order of the list; the empty string for the empty list. -/
def JoinedField (rt : Runtime) (j : Json) (key : String) (l : List (Option Address)) : Prop :=
  ∃ as : List Address, l = as.map some ∧
    j.member key = some (.str (Join (as.map (Address.String rt)) ", ")) ∧
    Join (as.map (Address.String rt)) ", " =
      String.join ((as.map (Address.String rt)).intersperse ", ") ∧
    ((as.map (Address.String rt)).intersperse ", ").length = as.length + (as.length - 1) ∧
    (∀ i (h : i < as.length),
      ((as.map (Address.String rt)).intersperse ", ")[2 * i]? = some ((as.get ⟨i, h⟩).String rt)) ∧
    (∀ i, i + 1 < as.length →
      ((as.map (Address.String rt)).intersperse ", ")[2 * i + 1]? = some ", ") ∧
    (l = [] → j.member key = some (.str ""))

/-- A text that `escape` leaves as it is in the given mode: ASCII characters that need no
percent-escape. -/
def unescaped (s : String) (mode : encoding) : Bool :=
  s.data.all (fun c => decide (c.toNat < 0x80) && !shouldEscape c.toNat mode)

/-- The URL that `Send` selects for a message: the statements
`url := c.endpoint("email"); if msg.TemplateId != 0 { url = c.endpoint("email/withTemplate") }`. -/
def Client.sendURL (c : Client) (msg : Message) : URL :=
  let url := c.endpoint "email"
  if msg.TemplateId ≠ 0 then c.endpoint "email/withTemplate" else url

/-- The streams of a message in the order in which marshalling reads them: `HtmlBody`, `TextBody`,
then the `Content` of the attachments in the order of the list. -/
def Message.streams (m : Message) : List Reader :=
  m.HtmlBody.toList ++ m.TextBody.toList ++ (m.Attachments.getD []).filterMap (fun a => a.Content)

/-- The read error of the first stream of the message that fails, if one does. -/
def Message.firstReadError (m : Message) : Option GoError :=
  (m.streams.filterMap (fun r => r.err)).head?

/-- The value of field `field` of a Result, as a JSON value. -/
def Result.get (r : Result) (field : String) : Json :=
  if field = "ErrorCode" then .num r.ErrorCode
  else if field = "Message" then .str r.Message
  else if field = "MessageID" then .str r.MessageID
  else if field = "SubmittedAt" then .str r.SubmittedAt
  else if field = "To" then .str r.To
  else .null

/-- The JSON value `v` has the type of field `field` of a Result: an integer that fits `int` for
`ErrorCode`, a string for the other fields. -/
def Result.accepts (field : String) (v : Json) : Bool :=
  match v with
  | .num n => field = "ErrorCode" && fitsInt n
  | .str _ => field != "ErrorCode"
  | _ => false

/-- The Result `res` carries the members `ms` of a JSON object: each field holds the value of the
member of its name when the object has one, of the type of the field, wherever the member stands
in the object, and its zero value when the object has no member of that name. -/
def Result.Carries (ms : List (String × Json)) (res : Result) : Prop :=
  (∀ n, ("ErrorCode", Json.num n) ∈ ms → fitsInt n = true → res.ErrorCode = n) ∧
  (∀ s, ("Message", Json.str s) ∈ ms → res.Message = s) ∧
  (∀ s, ("MessageID", Json.str s) ∈ ms → res.MessageID = s) ∧
  (∀ s, ("SubmittedAt", Json.str s) ∈ ms → res.SubmittedAt = s) ∧
  (∀ s, ("To", Json.str s) ∈ ms → res.To = s) ∧
  ("ErrorCode" ∉ ms.map Prod.fst → res.ErrorCode = 0) ∧
  ("Message" ∉ ms.map Prod.fst → res.Message = "") ∧
  ("MessageID" ∉ ms.map Prod.fst → res.MessageID = "") ∧
  ("SubmittedAt" ∉ ms.map Prod.fst → res.SubmittedAt = "") ∧
  ("To" ∉ ms.map Prod.fst → res.To = "")

/-- A JSON object in the shape of a Result: its member names are distinct, and each is the name
of a field of `Result` or selects no field at all. -/
def ResultShaped (ms : List (String × Json)) : Prop :=
  (ms.map Prod.fst).Nodup ∧ ∀ kv ∈ ms, kv.1 ∈ Result.fields ∨ Result.fieldFor kv.1 = none

/-! ## `net/url`: a host that `url.Parse` refuses -/

/-- The functions `ishex` and `unhex` of `net/url`: the value of a hexadecimal digit. -/
def unhex (c : Char) : Option Nat :=
  if '0'.toNat ≤ c.toNat ∧ c.toNat ≤ '9'.toNat then some (c.toNat - '0'.toNat)
  else if 'a'.toNat ≤ c.toNat ∧ c.toNat ≤ 'f'.toNat then some (c.toNat - 'a'.toNat + 10)
  else if 'A'.toNat ≤ c.toNat ∧ c.toNat ≤ 'F'.toNat then some (c.toNat - 'A'.toNat + 10)
  else none

/-- The first loop of `unescape` of `net/url` in mode `encodeHost`, which `url.Parse` runs on the
host: a `%` must be followed by two hexadecimal digits, and for a digit pair below `80` other than
`25` the escape is refused (`EscapeError`); an ASCII character that a host cannot hold is refused
(`InvalidHostError`). `fuel` bounds the number of iterations. -/
def unescapeHostError : Nat → List Char → Option GoError
  | 0, _ => none
  | fuel + 1, s =>
    match s with
    | [] => none
    | c :: rest =>
      if c = '%' then
        match rest with
        | a :: b :: rest2 =>
          match unhex a, unhex b with
          | some h, some _ =>
            if h < 8 ∧ (a, b) ≠ ('2', '5') then
              some (.newRequest ("invalid URL escape \"" ++ String.mk [c, a, b] ++ "\""))
            else unescapeHostError fuel rest2
          | _, _ => some (.newRequest ("invalid URL escape \"" ++ String.mk s ++ "\""))
        | _ => some (.newRequest ("invalid URL escape \"" ++ String.mk s ++ "\""))
      else if c.toNat < 0x80 ∧ shouldEscape c.toNat .encodeHost = true then
        some (.newRequest ("invalid character " ++ String.mk [c] ++ " in host name"))
      else unescapeHostError fuel rest

/-- The text after the first `//` of a URL string. -/
def afterSlashes : List Char → List Char
  | [] => []
  | c :: rest =>
    match rest with
    | d :: rest2 => if c = '/' ∧ d = '/' then rest2 else afterSlashes rest
    | [] => []

/-- The host of a URL string without user information and port, as `url.Parse` cuts it: the text
between the first `//` and the next `/`, `?` or `#`. -/
def hostOf (url : String) : List Char :=
  (afterSlashes url.data).takeWhile (fun c => c != '/' && c != '?' && c != '#')

/-! ## Concrete inputs -/

namespace Example

/-- A run-time whose `range` visits the entries of a map in the order of their insertion. -/
def rt : Runtime := { mapOrder := id, encodeWord := fun _ s => s }

/-- A run-time whose `range` visits the entries of a map in the reverse order of their
insertion. -/
def rtReverse : Runtime := { mapOrder := List.reverse, encodeWord := fun _ s => s }

/-- The message `Message{From: "a@x.com", To: [{"B","b@x.com"}], Subject: "Hi",
TextBody: "hello"}`. -/
def scenario : Message :=
  { From := some { Address := "a@x.com" }
    To := [some { Name := "B", Address := "b@x.com" }]
    Subject := "Hi"
    TextBody := some (NewReader "hello") }

/-- A message to two recipients, one of them in copy. -/
def twoRecipients : Message :=
  { From := some { Address := "a@x.com" }
    To := [some { Name := "B", Address := "b@x.com" }, some { Address := "c@x.com" }]
    Cc := [some { Name := "Doe, John", Address := "d@x.com" }]
    Subject := "Hi"
    TextBody := some (NewReader "hello") }

/-- A message with one attachment. -/
def withAttachment : Message :=
  { From := some { Address := "a@x.com" }
    To := [some { Address := "b@x.com" }]
    Subject := "Hi"
    TextBody := some (NewReader "hello")
    Attachments :=
      some [{ Name := "f.txt", Content := some (NewReader "hi"), ContentType := "text/plain" }] }

/-- A message with two headers, `X-A` inserted before `X-B`; `X-A` has two values. -/
def withHeaders : Message :=
  { From := some { Address := "a@x.com" }
    To := [some { Address := "b@x.com" }]
    Headers := [("X-A", ["1", "2"]), ("X-B", ["3"])] }

/-- The JSON object the header entry `k: v` becomes. -/
def headerDoc (k v : String) : Json := .obj [("Name", .str k), ("Value", .str v)]

/-- The JSON document `scenario` marshals to. -/
def scenarioDoc : Json :=
  .obj [("From", .str "<a@x.com>"), ("To", .str "\"B\" <b@x.com>"), ("Cc", .str ""),
    ("Bcc", .str ""), ("Subject", .str "Hi"), ("Tag", .str ""), ("TextBody", .str "hello"),
    ("TemplateModel", .null), ("ReplyTo", .str ""), ("Headers", .arr []), ("omitempty", .null)]

/-- The JSON document `twoRecipients` marshals to. -/
def twoRecipientsDoc : Json :=
  .obj [("From", .str "<a@x.com>"), ("To", .str "\"B\" <b@x.com>, <c@x.com>"),
    ("Cc", .str "\"Doe, John\" <d@x.com>"), ("Bcc", .str ""), ("Subject", .str "Hi"),
    ("Tag", .str ""), ("TextBody", .str "hello"), ("TemplateModel", .null), ("ReplyTo", .str ""),
    ("Headers", .arr []), ("omitempty", .null)]

/-- The JSON object the attachment `f.txt` marshals to. -/
def attachmentDoc : Json :=
  .obj [("Name", .str "f.txt"), ("Content", .str "aGk="), ("ContentType", .str "text/plain")]

/-- The JSON document `withAttachment` marshals to. -/
def withAttachmentDoc : Json :=
  .obj [("From", .str "<a@x.com>"), ("To", .str "<b@x.com>"), ("Cc", .str ""), ("Bcc", .str ""),
    ("Subject", .str "Hi"), ("Tag", .str ""), ("TextBody", .str "hello"),
    ("TemplateModel", .null), ("ReplyTo", .str ""), ("Headers", .arr []),
    ("omitempty", .arr [attachmentDoc])]

/-- The JSON document `withHeaders` marshals to when `range` visits `X-B` before `X-A`. -/
def withHeadersDoc : Json :=
  .obj [("From", .str "<a@x.com>"), ("To", .str "<b@x.com>"), ("Cc", .str ""), ("Bcc", .str ""),
    ("Tag", .str ""), ("TemplateModel", .null), ("ReplyTo", .str ""),
    ("Headers", .arr [headerDoc "X-B" "3", headerDoc "X-A" "1", headerDoc "X-A" "2"]),
    ("omitempty", .null)]

/-- The client `Client{ApiKey: "k", Secure: true}`. -/
def client : Client := { ApiKey := "k", Secure := true }

/-- Two results as the vendor API reports them. -/
def result1 : Result :=
  { ErrorCode := 0, Message := "OK", MessageID := "id-1", SubmittedAt := "2024-01-01T00:00:00Z",
    To := "b@x.com" }

/-- The second of the two results. -/
def result2 : Result :=
  { ErrorCode := 406, Message := "Inactive recipient", MessageID := "", SubmittedAt := "",
    To := "c@x.com" }

/-- A network that accepts every URL and answers every request with status 200 and the JSON array
of `result1` and `result2`. -/
def batchNet : Network :=
  { Parse := fun _ => none
    Do := fun _ => .ok { StatusCode := 200, Body := .value (.arr [result1.toJson, result2.toJson]) } }

/-- A network that accepts every URL and answers every request with status 422 and the JSON object
of `result2`. -/
def net : Network :=
  { Parse := fun _ => none
    Do := fun _ => .ok { StatusCode := 422, Body := .value result2.toJson } }

/-- A network whose `Parse` refuses what `url.Parse` refuses in the host of a URL string, and that
answers every request with status 200 and the JSON object of `result1`. -/
def parsingNet : Network :=
  { Parse := fun url => unescapeHostError (hostOf url).length (hostOf url)
    Do := fun _ => .ok { StatusCode := 200, Body := .value result1.toJson } }

/-- The client `Client{Host: "a b"}`. -/
def spacedHost : Client := { Host := "a b" }

/-- The members of a JSON object as the vendor API may send them: the fields of `result2` in
another order, `ErrorCode` last but one, and a member that `Result` does not have. -/
def vendorMembers : List (String × Json) :=
  [("To", .str "c@x.com"), ("SubmittedAt", .str ""), ("MessageID", .str ""),
    ("ErrorCode", .num 406), ("Message", .str "Inactive recipient"), ("Extra", .bool true)]

/-- A network that accepts every URL and answers every request with status 422 and the JSON object
of the members `vendorMembers`. -/
def vendorNet : Network :=
  { Parse := fun _ => none
    Do := fun _ => .ok { StatusCode := 422, Body := .value (.obj vendorMembers) } }

/-- The members of the JSON object of an error answer without the other fields. -/
def tokenMembers : List (String × Json) :=
  [("ErrorCode", .num 10), ("Message", .str "Bad or missing API token.")]

/-- A message that refers to the template 7. -/
def templated : Message :=
  { From := some { Address := "a@x.com" }
    To := [some { Address := "b@x.com" }]
    TemplateId := 7 }

/-- The JSON document `templated` marshals to. -/
def templatedDoc : Json :=
  .obj [("From", .str "<a@x.com>"), ("To", .str "<b@x.com>"), ("Cc", .str ""), ("Bcc", .str ""),
    ("Tag", .str ""), ("TemplateId", .num 7), ("TemplateModel", .null), ("ReplyTo", .str ""),
    ("Headers", .arr []), ("omitempty", .null)]

/-- An attachment whose stream yields the two bytes of `hi`. -/
def attachment : Attachment :=
  { Name := "f.txt", Content := some (NewReader "hi"), ContentType := "text/plain" }

/-- A stream that fails. -/
def failing : Reader := { data := [], err := some (.read "unexpected EOF") }

/-- A message without `From` whose `HtmlBody` fails. -/
def noFrom : Message := { To := [some { Address := "b@x.com" }], HtmlBody := some failing }

/-- A message with a nil entry in `To` whose `HtmlBody` fails. -/
def nilRecipient : Message :=
  { From := some { Address := "a@x.com" }, To := [none], HtmlBody := some failing }

/-- A message whose streams read well and whose `TemplateModel` holds a channel. -/
def channelModel : Message :=
  { From := some { Address := "a@x.com" }
    To := [some { Address := "b@x.com" }]
    TextBody := some (NewReader "hello")
    TemplateId := 7
    TemplateModel := some [("ch", .unsupported "chan int")] }

/-- A message whose streams read well and whose attachment has no `Content`. -/
def nilContent : Message :=
  { From := some { Address := "a@x.com" }
    To := [some { Address := "b@x.com" }]
    TextBody := some (NewReader "hello")
    Attachments := some [{ Name := "f.txt", ContentType := "text/plain" }] }

/-- A message whose attachment fails to read, after a body that reads well. -/
def failingAttachment : Message :=
  { From := some { Address := "a@x.com" }
    To := [some { Address := "b@x.com" }]
    TextBody := some (NewReader "hello")
    Attachments := some [attachment, { Name := "g.txt", Content := some failing }] }

end Example


/-! ## base64: decoding undoes encoding -/

theorem base64.decodeChar_encodeChar (i : Nat) (h : i < 64) :
    base64.decodeChar (base64.encodeChar i) = some i := by
  interval_cases i <;> rfl

theorem base64.encodeChar_ne_pad (i : Nat) (h : i < 64) : base64.encodeChar i ≠ '=' := by
  interval_cases i <;> decide

theorem base64.encodeChar_not_newline (i : Nat) (h : i < 64) :
    (base64.encodeChar i != '\r' && base64.encodeChar i != '\n') = true := by
  interval_cases i <;> decide

theorem base64.decodeQuanta_Encode (b : List Byte) :
    base64.decodeQuanta (base64.Encode b) = some b := by
  induction b using base64.Encode.induct with
  | case1 b0 b1 b2 rest ih =>
    have h0 := b0.isLt
    have h1 := b1.isLt
    have h2 := b2.isLt
    simp only [base64.Encode, base64.decodeQuanta]
    rw [if_neg (base64.encodeChar_ne_pad _ (Nat.mod_lt _ (by decide)))]
    simp only [base64.decodeChar_encodeChar _ (Nat.mod_lt _ (by decide)), ih]
    simp only [Option.some.injEq, List.cons.injEq, and_true]
    refine ⟨?_, ?_, ?_⟩ <;> apply Fin.ext <;> simp only [byteOf] <;> omega
  | case2 b0 b1 =>
    have h0 := b0.isLt
    have h1 := b1.isLt
    simp only [base64.Encode, base64.decodeQuanta]
    simp only [base64.decodeChar_encodeChar _ (Nat.mod_lt _ (by decide)),
      if_neg (base64.encodeChar_ne_pad _ (Nat.mod_lt _ (by decide)))]
    simp only [List.isEmpty_nil, Bool.not_true, Bool.false_eq_true, if_false, if_true,
      Option.some.injEq, List.cons.injEq, and_true]
    refine ⟨?_, ?_⟩ <;> apply Fin.ext <;> simp only [byteOf] <;> omega
  | case3 b0 =>
    have h0 := b0.isLt
    simp only [base64.Encode, base64.decodeQuanta]
    simp only [base64.decodeChar_encodeChar _ (Nat.mod_lt _ (by decide))]
    simp only [List.isEmpty_nil, Bool.not_true, Bool.false_eq_true, if_false, if_true,
      Option.some.injEq, List.cons.injEq, and_true]
    apply Fin.ext
    simp only [byteOf]
    omega
  | case4 => rfl

theorem base64.Encode_no_newline (b : List Byte) :
    ∀ c ∈ base64.Encode b, (c != '\r' && c != '\n') = true := by
  induction b using base64.Encode.induct with
  | case1 b0 b1 b2 rest ih =>
    intro c hc
    simp only [base64.Encode, List.mem_cons] at hc
    rcases hc with rfl | rfl | rfl | rfl | hc
    · exact base64.encodeChar_not_newline _ (Nat.mod_lt _ (by decide))
    · exact base64.encodeChar_not_newline _ (Nat.mod_lt _ (by decide))
    · exact base64.encodeChar_not_newline _ (Nat.mod_lt _ (by decide))
    · exact base64.encodeChar_not_newline _ (Nat.mod_lt _ (by decide))
    · exact ih c hc
  | case2 b0 b1 =>
    intro c hc
    simp only [base64.Encode, List.mem_cons, List.mem_singleton, List.not_mem_nil, or_false] at hc
    rcases hc with rfl | rfl | rfl | rfl
    · exact base64.encodeChar_not_newline _ (Nat.mod_lt _ (by decide))
    · exact base64.encodeChar_not_newline _ (Nat.mod_lt _ (by decide))
    · exact base64.encodeChar_not_newline _ (Nat.mod_lt _ (by decide))
    · decide
  | case3 b0 =>
    intro c hc
    simp only [base64.Encode, List.mem_cons, List.mem_singleton, List.not_mem_nil, or_false] at hc
    rcases hc with rfl | rfl | rfl | rfl
    · exact base64.encodeChar_not_newline _ (Nat.mod_lt _ (by decide))
    · exact base64.encodeChar_not_newline _ (Nat.mod_lt _ (by decide))
    · decide
    · decide
  | case4 => intro c hc; cases hc

theorem base64.DecodeString_EncodeToString (b : List Byte) :
    base64.DecodeString (base64.EncodeToString b) = some b := by
  unfold base64.DecodeString base64.EncodeToString
  have hf : (base64.Encode b).filter (fun c => c != '\r' && c != '\n') = base64.Encode b :=
    List.filter_eq_self.mpr (base64.Encode_no_newline b)
  show base64.decodeQuanta ((base64.Encode b).filter _) = some b
  rw [hf]
  exact base64.decodeQuanta_Encode b


/-! ## The struct encoder on the tags of the program -/

@[simp] theorem Field.omitEmpty_plain (n : String) (e : Bool) (v : Outcome Json) :
    Field.omitEmpty ⟨n, "", e, v⟩ = false := rfl

@[simp] theorem Field.omitEmpty_comma (n : String) (e : Bool) (v : Outcome Json) :
    Field.omitEmpty ⟨n, ",omitempty", e, v⟩ = true := by
  show ((parseTag ",omitempty").2 ≠ "" &&
    tagOptionsContains (parseTag ",omitempty").2.data [] "omitempty") = true
  decide

@[simp] theorem Field.omitEmpty_named (n : String) (e : Bool) (v : Outcome Json) :
    Field.omitEmpty ⟨n, "omitempty", e, v⟩ = false := by
  show ((parseTag "omitempty").2 ≠ "" &&
    tagOptionsContains (parseTag "omitempty").2.data [] "omitempty") = false
  decide

@[simp] theorem Field.key_plain (n : String) (e : Bool) (v : Outcome Json) :
    Field.key ⟨n, "", e, v⟩ = n := rfl

@[simp] theorem Field.key_comma (n : String) (e : Bool) (v : Outcome Json) :
    Field.key ⟨n, ",omitempty", e, v⟩ = n := rfl

@[simp] theorem Field.key_named (n : String) (e : Bool) (v : Outcome Json) :
    Field.key ⟨n, "omitempty", e, v⟩ = "omitempty" := rfl

theorem marshalStruct_doc (m : Message) (sender tos ccs bccs htmlBody textBody replyTo : String)
    (headers : List Json) :
    marshalStruct (m.doc sender tos ccs bccs htmlBody textBody replyTo headers) =
      match mapEncoder m.TemplateModel with
      | .ret tm =>
        match attachmentsEncoder m.Attachments with
        | .ret atts =>
          .ret (.obj (m.members sender tos ccs bccs htmlBody textBody replyTo tm headers atts))
        | .err e => .err e
        | .panicked s => .panicked s
      | .err e => .err e
      | .panicked s => .panicked s := by
  unfold marshalStruct Message.doc Message.members
  simp only [structEncoder, Field.omitEmpty_plain, Field.omitEmpty_comma, Field.omitEmpty_named,
    Field.key_plain, Field.key_comma, Field.key_named, Bool.false_and, Bool.true_and,
    Bool.false_eq_true, if_false, decide_eq_true_eq]
  cases mapEncoder m.TemplateModel <;> cases attachmentsEncoder m.Attachments <;>
    by_cases h1 : m.Subject = "" <;> by_cases h2 : htmlBody = "" <;>
    by_cases h3 : textBody = "" <;> by_cases h4 : m.TemplateId = 0 <;>
    simp [h1, h2, h3, h4]


theorem ptrString_ret {rt : Runtime} {addr : Option Address} {s : String}
    (h : ptrString rt addr = .ret s) : ∃ a, addr = some a ∧ s = a.String rt := by
  cases addr with
  | none => simp [ptrString] at h
  | some a =>
    simp only [ptrString, Outcome.ret.injEq] at h
    exact ⟨a, rfl, h.symm⟩

theorem addrStrings_ret {rt : Runtime} {l : List (Option Address)} {ss : List String}
    (h : addrStrings rt l = .ret ss) :
    ∃ as : List Address, l = as.map some ∧ ss = as.map (Address.String rt) := by
  induction l generalizing ss with
  | nil =>
    simp only [addrStrings, Outcome.ret.injEq] at h
    exact ⟨[], rfl, h.symm⟩
  | cons x rest ih =>
    cases x with
    | none => simp [addrStrings, ptrString] at h
    | some a =>
      simp only [addrStrings, ptrString] at h
      cases hr : addrStrings rt rest with
      | ret ss1 =>
        rw [hr] at h
        simp only [Outcome.ret.injEq] at h
        obtain ⟨as, h1, h2⟩ := ih hr
        exact ⟨a :: as, by simp [h1], by simp [← h, h2]⟩
      | err e => rw [hr] at h; simp at h
      | panicked s => rw [hr] at h; simp at h

theorem addrStrings_map_some (rt : Runtime) (as : List Address) :
    addrStrings rt (as.map some) = .ret (as.map (Address.String rt)) := by
  induction as with
  | nil => rfl
  | cons a rest ih => simp [addrStrings, ptrString, ih]

theorem MarshalJSON_ret {rt : Runtime} {m : Message} {j : Json} (h : m.MarshalJSON rt = .ret j) :
    ∃ (a : Address) (tos ccs bccs : List Address) (htmlBody textBody : String) (tm atts : Json),
      m.From = some a ∧ m.To = tos.map some ∧ m.Cc = ccs.map some ∧ m.Bcc = bccs.map some ∧
      readBody m.HtmlBody = .ret htmlBody ∧ readBody m.TextBody = .ret textBody ∧
      mapEncoder m.TemplateModel = .ret tm ∧ attachmentsEncoder m.Attachments = .ret atts ∧
      j = .obj (m.members (a.String rt) (Join (tos.map (Address.String rt)) ", ")
        (Join (ccs.map (Address.String rt)) ", ") (Join (bccs.map (Address.String rt)) ", ")
        htmlBody textBody (m.replyTo rt) tm (headerDocs (rt.mapOrder m.Headers)) atts) := by
  unfold Message.MarshalJSON at h
  split at h
  case h_2 => simp at h
  case h_3 => simp at h
  case h_1 sender hF =>
  split at h
  case h_2 => simp at h
  case h_3 => simp at h
  case h_1 tos hTo =>
  split at h
  case h_2 => simp at h
  case h_3 => simp at h
  case h_1 ccs hCc =>
  split at h
  case h_2 => simp at h
  case h_3 => simp at h
  case h_1 bccs hBcc =>
  split at h
  case h_2 => simp at h
  case h_3 => simp at h
  case h_1 htmlBody hH =>
  split at h
  case h_2 => simp at h
  case h_3 => simp at h
  case h_1 textBody hT =>
  obtain ⟨a, hFa, rfl⟩ := ptrString_ret hF
  obtain ⟨tos1, hTo1, rfl⟩ := addrStrings_ret hTo
  obtain ⟨ccs1, hCc1, rfl⟩ := addrStrings_ret hCc
  obtain ⟨bccs1, hBcc1, rfl⟩ := addrStrings_ret hBcc
  rw [marshalStruct_doc] at h
  cases hM : mapEncoder m.TemplateModel with
  | err e => rw [hM] at h; simp at h
  | panicked s => rw [hM] at h; simp at h
  | ret tm =>
    cases hA : attachmentsEncoder m.Attachments with
    | err e => rw [hM, hA] at h; simp at h
    | panicked s => rw [hM, hA] at h; simp at h
    | ret atts =>
      rw [hM, hA] at h
      simp only [Outcome.ret.injEq] at h
      exact ⟨a, tos1, ccs1, bccs1, htmlBody, textBody, tm, atts, hFa, hTo1, hCc1, hBcc1, hH, hT,
        rfl, rfl, h.symm⟩

theorem MarshalJSON_of_parts {rt : Runtime} {m : Message} {a : Address}
    {tos ccs bccs : List Address} {htmlBody textBody : String}
    (hF : m.From = some a) (hTo : m.To = tos.map some) (hCc : m.Cc = ccs.map some)
    (hBcc : m.Bcc = bccs.map some) (hH : readBody m.HtmlBody = .ret htmlBody)
    (hT : readBody m.TextBody = .ret textBody) :
    m.MarshalJSON rt =
      match mapEncoder m.TemplateModel with
      | .ret tm =>
        match attachmentsEncoder m.Attachments with
        | .ret atts =>
          .ret (.obj (m.members (a.String rt) (Join (tos.map (Address.String rt)) ", ")
            (Join (ccs.map (Address.String rt)) ", ") (Join (bccs.map (Address.String rt)) ", ")
            htmlBody textBody (m.replyTo rt) tm (headerDocs (rt.mapOrder m.Headers)) atts))
        | .err e => .err e
        | .panicked s => .panicked s
      | .err e => .err e
      | .panicked s => .panicked s := by
  unfold Message.MarshalJSON
  simp only [hF, hTo, hCc, hBcc, hH, hT, ptrString, addrStrings_map_some]
  rw [marshalStruct_doc]
  rfl

/-! ## Looking up the members of the marshalled object -/

section members
variable (m : Message) (sender tos ccs bccs htmlBody textBody replyTo : String)
  (tm : Json) (hs : List Json) (atts : Json)

theorem member_From :
    (Json.obj (m.members sender tos ccs bccs htmlBody textBody replyTo tm hs atts)).member "From"
      = some (.str sender) := rfl

theorem member_To :
    (Json.obj (m.members sender tos ccs bccs htmlBody textBody replyTo tm hs atts)).member "To"
      = some (.str tos) := rfl

theorem member_Cc :
    (Json.obj (m.members sender tos ccs bccs htmlBody textBody replyTo tm hs atts)).member "Cc"
      = some (.str ccs) := rfl

theorem member_Bcc :
    (Json.obj (m.members sender tos ccs bccs htmlBody textBody replyTo tm hs atts)).member "Bcc"
      = some (.str bccs) := rfl

theorem member_ReplyTo :
    (Json.obj (m.members sender tos ccs bccs htmlBody textBody replyTo tm hs atts)).member
      "ReplyTo" = some (.str replyTo) := by
  unfold Message.members Json.member
  by_cases h1 : m.Subject = "" <;> by_cases h2 : htmlBody = "" <;>
    by_cases h3 : textBody = "" <;> by_cases h4 : m.TemplateId = 0 <;>
    simp [h1, h2, h3, h4, List.lookup]

theorem member_Headers :
    (Json.obj (m.members sender tos ccs bccs htmlBody textBody replyTo tm hs atts)).member
      "Headers" = some (.arr hs) := by
  unfold Message.members Json.member
  by_cases h1 : m.Subject = "" <;> by_cases h2 : htmlBody = "" <;>
    by_cases h3 : textBody = "" <;> by_cases h4 : m.TemplateId = 0 <;>
    simp [h1, h2, h3, h4, List.lookup]

theorem member_omitempty :
    (Json.obj (m.members sender tos ccs bccs htmlBody textBody replyTo tm hs atts)).member
      "omitempty" = some atts := by
  unfold Message.members Json.member
  by_cases h1 : m.Subject = "" <;> by_cases h2 : htmlBody = "" <;>
    by_cases h3 : textBody = "" <;> by_cases h4 : m.TemplateId = 0 <;>
    simp [h1, h2, h3, h4, List.lookup]

theorem member_Attachments :
    (Json.obj (m.members sender tos ccs bccs htmlBody textBody replyTo tm hs atts)).member
      "Attachments" = none := by
  unfold Message.members Json.member
  by_cases h1 : m.Subject = "" <;> by_cases h2 : htmlBody = "" <;>
    by_cases h3 : textBody = "" <;> by_cases h4 : m.TemplateId = 0 <;>
    simp [h1, h2, h3, h4, List.lookup]

end members


/-! ## Strings -/

theorem foldl_append_eq (l : List String) (acc : String) :
    l.foldl (fun a b => a ++ b) acc = acc ++ l.foldl (fun a b => a ++ b) "" := by
  induction l generalizing acc with
  | nil => simp
  | cons x xs ih =>
    simp only [List.foldl_cons]
    rw [ih (acc ++ x), ih ("" ++ x)]
    simp [String.append_assoc]

theorem String_join_cons (x : String) (l : List String) :
    String.join (x :: l) = x ++ String.join l := by
  unfold String.join
  simp only [List.foldl_cons]
  rw [foldl_append_eq]
  simp

theorem foldl_sep_eq (sep : String) (rest : List String) (e : String) :
    rest.foldl (fun b s => b ++ sep ++ s) e
      = e ++ String.join (rest.flatMap (fun s => [sep, s])) := by
  induction rest generalizing e with
  | nil => simp [String.join]
  | cons x xs ih =>
    simp only [List.foldl_cons, List.flatMap_cons, List.cons_append, List.nil_append]
    rw [ih, String_join_cons, String_join_cons]
    simp [String.append_assoc]

theorem intersperse_cons_eq (sep e : String) (rest : List String) :
    (e :: rest).intersperse sep = e :: rest.flatMap (fun s => [sep, s]) := by
  induction rest generalizing e with
  | nil => rfl
  | cons x xs ih =>
    rw [List.intersperse, ih]
    · rfl
    · simp

theorem Join_eq_intersperse (elems : List String) (sep : String) :
    Join elems sep = String.join (elems.intersperse sep) := by
  match elems with
  | [] => rfl
  | [e] => simp [Join, String.join]
  | e :: x :: rest =>
    show (x :: rest).foldl (fun b s => b ++ sep ++ s) e = _
    rw [foldl_sep_eq, intersperse_cons_eq, String_join_cons]

theorem length_intersperse_eq (sep : String) (l : List String) :
    (l.intersperse sep).length = l.length + (l.length - 1) := by
  match l with
  | [] => rfl
  | e :: rest =>
    rw [intersperse_cons_eq]
    induction rest with
    | nil => rfl
    | cons x xs ih =>
      simp only [List.flatMap_cons, List.length_cons, List.cons_append, List.nil_append] at ih ⊢
      omega

theorem intersperse_even (sep : String) (l : List String) (i : Nat) (h : i < l.length) :
    (l.intersperse sep)[2 * i]? = some (l.get ⟨i, h⟩) := by
  induction l generalizing i with
  | nil => simp at h
  | cons e rest ih =>
    cases i with
    | zero => rw [intersperse_cons_eq]; simp
    | succ k =>
      cases rest with
      | nil => simp at h
      | cons x xs =>
        have hk : k < (x :: xs).length := by simpa using h
        have := ih k hk
        rw [List.intersperse]
        · have e2 : 2 * (k + 1) = 2 * k + 1 + 1 := by omega
          rw [e2]
          simpa using this
        · simp

theorem intersperse_odd (sep : String) (l : List String) (i : Nat) (h : i + 1 < l.length) :
    (l.intersperse sep)[2 * i + 1]? = some sep := by
  induction l generalizing i with
  | nil => simp at h
  | cons e rest ih =>
    cases rest with
    | nil => simp at h
    | cons x xs =>
      rw [List.intersperse]
      · cases i with
        | zero => simp
        | succ k =>
          have hk : k + 1 < (x :: xs).length := by simpa using h
          have := ih k hk
          have e2 : 2 * (k + 1) + 1 = 2 * k + 1 + 1 + 1 := by omega
          rw [e2]
          simpa using this
      · simp

theorem joinedField_of (rt : Runtime) (j : Json) (key : String) (as : List Address)
    (l : List (Option Address)) (hl : l = as.map some)
    (hj : j.member key = some (.str (Join (as.map (Address.String rt)) ", "))) :
    JoinedField rt j key l := by
  refine ⟨as, hl, hj, Join_eq_intersperse _ _, ?_, ?_, ?_, ?_⟩
  · rw [length_intersperse_eq]; simp
  · intro i h
    rw [intersperse_even _ _ i (by simpa using h)]
    simp
  · intro i h
    exact intersperse_odd _ _ i (by simpa using h)
  · intro h0
    subst hl
    have : as = [] := by simpa using h0
    subst this
    exact hj


/-! ## Addresses -/

theorem quoteString_plain (s : String) (h : plainName s = true) :
    quoteString s = "\"" ++ s ++ "\"" := by
  have key : ∀ l : List Char, (l.all (fun r => (isQtext r || isWSP r) && !isMultibyte r)) = true →
      l.flatMap (fun r =>
        if isQtext r || isWSP r then [r] else if isVchar r then ['\\', r] else []) = l := by
    intro l
    induction l with
    | nil => intro _; rfl
    | cons c cs ih =>
      intro hl
      simp only [List.all_cons, Bool.and_eq_true] at hl
      simp only [List.flatMap_cons, hl.1.1, if_true, ih hl.2]
      rfl
  unfold quoteString
  rw [key s.data h]
  apply String.ext
  simp

theorem cutLastAt_some {s loc dom : String} (h : cutLastAt s = some (loc, dom)) :
    s = loc ++ "@" ++ dom := by
  unfold cutLastAt at h
  rw [List.span_eq_take_drop] at h
  simp only at h
  split at h
  · simp at h
  · rename_i x b hb
    simp only [Option.some.injEq, Prod.mk.injEq] at h
    obtain ⟨rfl, rfl⟩ := h
    have hx : x = '@' := by
      have h1 := List.head_dropWhile_not (fun c => c != '@') s.data.reverse (by rw [hb]; simp)
      simp only [hb, List.head_cons] at h1
      simpa using h1
    subst hx
    have h2 := List.takeWhile_append_dropWhile (fun c => c != '@') s.data.reverse
    rw [hb] at h2
    have h3 : s.data = (b.reverse ++ ['@']) ++ (List.takeWhile (fun c => c != '@') s.data.reverse).reverse := by
      have := congrArg List.reverse h2
      simp only [List.reverse_append, List.reverse_cons, List.reverse_reverse] at this
      exact this.symm
    apply String.ext
    exact h3

theorem angleAddr_plain (a : Address) (h : plainEmail a.Address = true) :
    a.angleAddr = "<" ++ a.Address ++ ">" := by
  unfold plainEmail at h
  unfold Address.angleAddr
  cases hc : cutLastAt a.Address with
  | none => rw [hc] at h; simp at h
  | some p =>
    obtain ⟨loc, dom⟩ := p
    rw [hc] at h
    simp only [Bool.not_eq_true'] at h
    have hs := cutLastAt_some hc
    simp only [h, Bool.false_eq_true, if_false]
    rw [hs]
    simp [String.append_assoc]

theorem String_of_empty_name (rt : Runtime) (a : Address) (hn : a.Name = "")
    (he : plainEmail a.Address = true) : a.String rt = "<" ++ a.Address ++ ">" := by
  unfold Address.String
  simp only [hn, if_true]
  exact angleAddr_plain a he

theorem String_of_plain_name (rt : Runtime) (a : Address) (hn : a.Name ≠ "")
    (hp : plainName a.Name = true) (he : plainEmail a.Address = true) :
    a.String rt = "\"" ++ a.Name ++ "\" <" ++ a.Address ++ ">" := by
  have hall : (a.Name.data.all (fun r => !((!isVchar r && !isWSP r) || isMultibyte r))) = true := by
    unfold plainName at hp
    rw [List.all_eq_true] at hp ⊢
    intro r hr
    have := hp r hr
    simp only [Bool.and_eq_true, Bool.or_eq_true, Bool.not_eq_true'] at this
    obtain ⟨h1, h2⟩ := this
    have hv : isVchar r = true ∨ isWSP r = true := by
      rcases h1 with h1 | h1
      · left
        unfold isQtext at h1
        split at h1
        · simp at h1
        · exact h1
      · right; exact h1
    rcases hv with hv | hv <;> simp [hv, h2]
  unfold Address.String
  simp only [hn, if_false, hall, if_true]
  rw [angleAddr_plain a he, quoteString_plain _ hp]
  apply String.ext
  simp only [String.data_append, List.append_assoc]
  rfl


/-- C2 (code defect): the struct tag of the field `Attachments` is `json:"omitempty"`, which names
the member instead of setting the option. For the message `Example.withAttachment`, which has one
attachment, the marshalled object has no member named `Attachments`; the array of the attachment
objects, each as `(*Attachment).MarshalJSON` writes it, is the value of a member named
`omitempty`. -/
theorem attachments_member_is_named_omitempty :
    Example.withAttachment.MarshalJSON Example.rt = .ret Example.withAttachmentDoc ∧
      Example.withAttachmentDoc.member "Attachments" = none ∧
      Example.withAttachmentDoc.keys = ["From", "To", "Cc", "Bcc", "Subject", "Tag", "TextBody",
        "TemplateModel", "ReplyTo", "Headers", "omitempty"] ∧
      Example.withAttachmentDoc.member "omitempty" = some (.arr [Example.attachmentDoc]) ∧
      Attachment.MarshalJSON
          { Name := "f.txt", Content := some (NewReader "hi"), ContentType := "text/plain" }
        = .ret Example.attachmentDoc :=
  ⟨rfl, rfl, rfl, rfl, rfl⟩

/-- C3 (counterexample): the scenario message of the specification marshals to an object whose
`From` is `<a@x.com>`, not the bare `a@x.com`, and whose `To` is `"B" <b@x.com>`, not
`B <b@x.com>`. -/
theorem scenario_addresses_not_bare :
    Example.scenario.MarshalJSON Example.rt = .ret Example.scenarioDoc ∧
      Example.scenarioDoc.member "From" = some (.str "<a@x.com>") ∧
      Example.scenarioDoc.member "From" ≠ some (.str "a@x.com") ∧
      Example.scenarioDoc.member "To" = some (.str "\"B\" <b@x.com>") ∧
      Example.scenarioDoc.member "To" ≠ some (.str "B <b@x.com>") := by
  refine ⟨rfl, rfl, ?_, rfl, ?_⟩
  · intro h
    have h1 : Example.scenarioDoc.member "From" = some (.str "<a@x.com>") := rfl
    rw [h1] at h
    injection h with h
    injection h with h
    exact absurd h (by decide)
  · intro h
    have h1 : Example.scenarioDoc.member "To" = some (.str "\"B\" <b@x.com>") := rfl
    rw [h1] at h
    injection h with h
    injection h with h
    exact absurd h (by decide)

/-- C3 (amended): in the object a message marshals to, `From`, `To`, `Cc`, `Bcc` and `ReplyTo` hold
what `(*mail.Address).String` makes of the addresses (a nil `ReplyTo` gives the empty string). For
an email whose local part needs no quoting that string is `<email>` when the display name is
empty, and `"Name" <email>` when the name is non-empty and made of printable ASCII characters,
spaces and tabs other than the double quote and the backslash. The scenario message marshals to an
object with From=`<a@x.com>`, To=`"B" <b@x.com>`, Subject=`Hi`, TextBody=`hello`, Tag and ReplyTo
empty. -/
theorem addresses_rendered_by_mail_address (rt : Runtime) (m : Message) (j : Json)
    (h : m.MarshalJSON rt = .ret j) :
    (∃ a, m.From = some a ∧ j.member "From" = some (.str (a.String rt))) ∧
    (∃ tos : List Address, m.To = tos.map some ∧
      j.member "To" = some (.str (Join (tos.map (Address.String rt)) ", "))) ∧
    (∃ ccs : List Address, m.Cc = ccs.map some ∧
      j.member "Cc" = some (.str (Join (ccs.map (Address.String rt)) ", "))) ∧
    (∃ bccs : List Address, m.Bcc = bccs.map some ∧
      j.member "Bcc" = some (.str (Join (bccs.map (Address.String rt)) ", "))) ∧
    j.member "ReplyTo" = some (.str (m.replyTo rt)) ∧
    (∀ a : Address, a.Name = "" → plainEmail a.Address = true →
      a.String rt = "<" ++ a.Address ++ ">") ∧
    (∀ a : Address, a.Name ≠ "" → plainName a.Name = true → plainEmail a.Address = true →
      a.String rt = "\"" ++ a.Name ++ "\" <" ++ a.Address ++ ">") ∧
    (∃ doc, Example.scenario.MarshalJSON rt = .ret doc ∧
      doc.member "From" = some (.str "<a@x.com>") ∧
      doc.member "To" = some (.str "\"B\" <b@x.com>") ∧
      doc.member "Subject" = some (.str "Hi") ∧
      doc.member "TextBody" = some (.str "hello") ∧
      doc.member "Tag" = some (.str "") ∧
      doc.member "ReplyTo" = some (.str "")) := by
  obtain ⟨a, tos, ccs, bccs, htmlBody, textBody, tm, atts, hF, hTo, hCc, hBcc, -, -, -, -, rfl⟩ :=
    MarshalJSON_ret h
  refine ⟨⟨a, hF, member_From ..⟩, ⟨tos, hTo, member_To ..⟩, ⟨ccs, hCc, member_Cc ..⟩,
    ⟨bccs, hBcc, member_Bcc ..⟩, member_ReplyTo .., ?_, ?_, ?_⟩
  · intro a hn he
    exact String_of_empty_name rt a hn he
  · intro a hn hp he
    exact String_of_plain_name rt a hn hp he
  · exact ⟨_, rfl, rfl, rfl, rfl, rfl, rfl, rfl⟩

/-- C3 (amended), at the scenario message. -/
theorem addresses_rendered_by_mail_address_witness :
    Example.scenario.MarshalJSON Example.rt = .ret Example.scenarioDoc ∧
      Example.scenarioDoc.member "From" = some (.str "<a@x.com>") ∧
      (∃ a, Example.scenario.From = some a ∧
        Example.scenarioDoc.member "From" = some (.str (a.String Example.rt))) :=
  ⟨rfl, rfl, (addresses_rendered_by_mail_address Example.rt Example.scenario Example.scenarioDoc
    rfl).1⟩

/-- C4: in the object a message marshals to, each of `To`, `Cc` and `Bcc` holds the serialized
addresses of its list joined by `", "` in the order of the list: `N` addresses with `N - 1`
separators between them, and the empty string for an empty or nil list. -/
theorem address_lists_joined (rt : Runtime) (m : Message) (j : Json)
    (h : m.MarshalJSON rt = .ret j) :
    JoinedField rt j "To" m.To ∧ JoinedField rt j "Cc" m.Cc ∧ JoinedField rt j "Bcc" m.Bcc := by
  obtain ⟨a, tos, ccs, bccs, htmlBody, textBody, tm, atts, -, hTo, hCc, hBcc, -, -, -, -, rfl⟩ :=
    MarshalJSON_ret h
  exact ⟨joinedField_of rt _ "To" tos m.To hTo (member_To ..),
    joinedField_of rt _ "Cc" ccs m.Cc hCc (member_Cc ..),
    joinedField_of rt _ "Bcc" bccs m.Bcc hBcc (member_Bcc ..)⟩

/-- C4, at a message with two `To` addresses, one `Cc` address and no `Bcc` address. -/
theorem address_lists_joined_witness :
    Example.twoRecipients.MarshalJSON Example.rt = .ret Example.twoRecipientsDoc ∧
      Example.twoRecipientsDoc.member "To" = some (.str "\"B\" <b@x.com>, <c@x.com>") ∧
      Example.twoRecipientsDoc.member "Bcc" = some (.str "") ∧
      (JoinedField Example.rt Example.twoRecipientsDoc "To" Example.twoRecipients.To ∧
        JoinedField Example.rt Example.twoRecipientsDoc "Cc" Example.twoRecipients.Cc ∧
        JoinedField Example.rt Example.twoRecipientsDoc "Bcc" Example.twoRecipients.Bcc) :=
  ⟨rfl, rfl, rfl, address_lists_joined Example.rt Example.twoRecipients Example.twoRecipientsDoc rfl⟩

/-- C5 (counterexample): `range` over a map may visit the entries in any order. With the headers
`X-A: 1, 2` inserted before `X-B: 3` and an execution that visits `X-B` first, the marshalled
`Headers` lists the entry of `X-B` before those of `X-A`: not the order of insertion. -/
theorem headers_not_in_insertion_order :
    Example.rtReverse.Valid ∧
      Example.withHeaders.MarshalJSON Example.rtReverse = .ret Example.withHeadersDoc ∧
      Example.withHeadersDoc.member "Headers" = some (.arr
        [Example.headerDoc "X-B" "3", Example.headerDoc "X-A" "1", Example.headerDoc "X-A" "2"]) ∧
      Example.withHeadersDoc.member "Headers" ≠
        some (.arr (headerDocs Example.withHeaders.Headers)) := by
  refine ⟨fun l => List.reverse_perm l, rfl, rfl, ?_⟩
  intro h
  have h1 : Example.withHeadersDoc.member "Headers" = some (.arr
      [Example.headerDoc "X-B" "3", Example.headerDoc "X-A" "1", Example.headerDoc "X-A" "2"]) :=
    rfl
  have h2 : headerDocs Example.withHeaders.Headers =
      [Example.headerDoc "X-A" "1", Example.headerDoc "X-A" "2", Example.headerDoc "X-B" "3"] :=
    rfl
  rw [h1, h2] at h
  injection h with h
  injection h with h
  injection h with h _
  unfold Example.headerDoc at h
  injection h with h
  injection h with h _
  injection h with _ h
  injection h with h
  exact absurd h (by decide)

/-- C5 (amended): in the object a message marshals to, `Headers` is a list with exactly one
`{Name: k, Value: v}` entry for each value `v` of each header name `k`, so its length is the total
number of values; the entries of one name stand together, in the order of its values; the names
follow each other in the order in which `range` visits the map, which is some rearrangement of the
order of insertion. -/
theorem headers_one_entry_per_value (rt : Runtime) (hv : rt.Valid) (m : Message) (j : Json)
    (h : m.MarshalJSON rt = .ret j) :
    ∃ es : List (String × List String), es.Perm m.Headers ∧
      j.member "Headers" = some (.arr (headerDocs es)) ∧
      (headerDocs es).Perm (headerDocs m.Headers) ∧
      (headerDocs es).length = (m.Headers.map (fun kvs => kvs.2.length)).sum ∧
      (∀ k vs rest, headerDocs ((k, vs) :: rest) =
        vs.map (fun v => .obj [("Name", .str k), ("Value", .str v)]) ++ headerDocs rest) := by
  obtain ⟨a, tos, ccs, bccs, htmlBody, textBody, tm, atts, -, -, -, -, -, -, -, -, rfl⟩ :=
    MarshalJSON_ret h
  have hp : (headerDocs (rt.mapOrder m.Headers)).Perm (headerDocs m.Headers) :=
    List.Perm.flatMap_right _ (hv m.Headers)
  refine ⟨rt.mapOrder m.Headers, hv m.Headers, member_Headers .., hp, ?_, ?_⟩
  · rw [hp.length_eq]
    unfold headerDocs
    rw [List.length_flatMap]
    congr 1
    apply List.map_congr_left
    intro kvs _
    simp
  · intro k vs rest
    simp [headerDocs]

/-- C5 (amended), at a message with the headers `X-A: 1, 2` and `X-B: 3`, visited in reverse. -/
theorem headers_one_entry_per_value_witness :
    Example.rtReverse.Valid ∧
      Example.withHeaders.MarshalJSON Example.rtReverse = .ret Example.withHeadersDoc ∧
      ∃ es : List (String × List String), es.Perm Example.withHeaders.Headers ∧
        Example.withHeadersDoc.member "Headers" = some (.arr (headerDocs es)) ∧
        (headerDocs es).Perm (headerDocs Example.withHeaders.Headers) ∧
        (headerDocs es).length = (Example.withHeaders.Headers.map (fun kvs => kvs.2.length)).sum ∧
        (∀ k vs rest, headerDocs ((k, vs) :: rest) =
          vs.map (fun v => .obj [("Name", .str k), ("Value", .str v)]) ++ headerDocs rest) :=
  ⟨fun l => List.reverse_perm l, rfl,
    headers_one_entry_per_value Example.rtReverse (fun l => List.reverse_perm l)
      Example.withHeaders Example.withHeadersDoc rfl⟩


/-! ## Attachments -/

theorem Attachment_MarshalJSON_of_read (a : Attachment) (b : List Byte)
    (h : ReadAll a.Content = .ret b) :
    a.MarshalJSON = .ret (.obj [("Name", .str a.Name),
      ("Content", .str (base64.EncodeToString b)), ("ContentType", .str a.ContentType)]) := by
  unfold Attachment.MarshalJSON
  rw [h]
  simp [marshalStruct, structEncoder]

/-- C6: for an attachment whose `Content` reads successfully as the bytes `b`,
`(*Attachment).MarshalJSON` returns the object with exactly the members `Name`, `Content` and
`ContentType`, `Name` and `ContentType` being the fields of the attachment and `Content` the
standard base64 encoding of `b`; decoding that `Content` gives `b` back, also for empty `b`. -/
theorem attachment_marshals_base64 (a : Attachment) (b : List Byte)
    (h : ReadAll a.Content = .ret b) :
    a.MarshalJSON = .ret (.obj [("Name", .str a.Name),
        ("Content", .str (base64.EncodeToString b)), ("ContentType", .str a.ContentType)]) ∧
      (∃ j content, a.MarshalJSON = .ret j ∧ j.keys = ["Name", "Content", "ContentType"] ∧
        j.member "Name" = some (.str a.Name) ∧
        j.member "ContentType" = some (.str a.ContentType) ∧
        j.member "Content" = some (.str content) ∧ content = base64.EncodeToString b ∧
        base64.DecodeString content = some b) ∧
      base64.DecodeString (base64.EncodeToString []) = some [] := by
  have hm := Attachment_MarshalJSON_of_read a b h
  exact ⟨hm, ⟨_, _, hm, rfl, rfl, rfl, rfl, rfl, base64.DecodeString_EncodeToString b⟩,
    base64.DecodeString_EncodeToString []⟩

/-- C6, at the attachment `f.txt` with the content `hi`. -/
theorem attachment_marshals_base64_witness :
    ReadAll Example.attachment.Content = .ret (bytesOfString "hi") ∧
      Example.attachment.MarshalJSON = .ret Example.attachmentDoc ∧
      base64.DecodeString "aGk=" = some (bytesOfString "hi") ∧
      (Example.attachment.MarshalJSON = .ret (.obj [("Name", .str Example.attachment.Name),
        ("Content", .str (base64.EncodeToString (bytesOfString "hi"))),
        ("ContentType", .str Example.attachment.ContentType)])) :=
  ⟨rfl, rfl, by decide,
    (attachment_marshals_base64 Example.attachment (bytesOfString "hi") rfl).1⟩

theorem MarshalJSON_attachments_member (rt : Runtime) (m : Message) (j : Json)
    (h : m.MarshalJSON rt = .ret j) :
    j.member "Attachments" = none ∧
      ∃ atts, attachmentsEncoder m.Attachments = .ret atts ∧ j.member "omitempty" = some atts := by
  obtain ⟨a, tos, ccs, bccs, htmlBody, textBody, tm, atts, -, -, -, -, -, -, -, hA, rfl⟩ :=
    MarshalJSON_ret h
  exact ⟨member_Attachments .., atts, hA, member_omitempty ..⟩

/-! ## `SendBatch` -/

theorem SendBatch_result_nil (rt : Runtime) (net : Network) (c : Client)
    (msg : List (Option Message)) (rs : List (Option Result))
    (h : (Client.SendBatch rt net c msg).result = .ret rs) : rs = [] := by
  unfold Client.SendBatch at h
  split at h
  · simp at h
  · simp at h
  · split at h
    · simp at h
    · simp at h
    · simp only at h
      split at h
      · simp at h
      · rename_i resp _
        simp only [Outcome.ret.injEq] at h
        rw [← h]
        cases hb : resp.Body <;> rfl

/-- C1 (code defect): `SendBatch` hands the slice `res` itself, not a pointer to it, to `Decode`,
which refuses it; the error is dropped and the empty slice is returned. With two messages and a
response whose body is the JSON array of two Result objects, `SendBatch` posts one request to the
batch endpoint and returns a nil error with a slice of no Results, where decoding through a pointer
gives the two Results of the response in order. -/
theorem sendBatch_returns_empty_slice :
    (Client.SendBatch Example.rt Example.batchNet Example.client
        [some Example.scenario, some Example.twoRecipients]).result = .ret [] ∧
      (Client.SendBatch Example.rt Example.batchNet Example.client
        [some Example.scenario, some Example.twoRecipients]).requests.map (fun r => r.URL)
        = ["https://api.postmarkapp.com/email/batch"] ∧
      Decode (.value (.arr [Example.result1.toJson, Example.result2.toJson])) unmarshalResults
        "[]*postmark.Result" (.nonPointer [])
        = ([], some (.invalidUnmarshal "[]*postmark.Result")) ∧
      Decode (.value (.arr [Example.result1.toJson, Example.result2.toJson])) unmarshalResults
        "*[]*postmark.Result" (.pointer [])
        = ([some Example.result1, some Example.result2], none) := by
  refine ⟨by decide, by decide, rfl, by decide⟩


/-! ## URLs -/

theorem String_append_ne_empty_left (a b : String) (h : a ≠ "") : a ++ b ≠ "" := by
  intro hab
  apply h
  have := congrArg String.length hab
  simp only [String.length_append] at this
  apply String.ext
  have h0 : a.data.length = 0 := by
    have : a.length = 0 := by
      have h1 : ("" : String).length = 0 := rfl
      omega
    exact this
  exact List.length_eq_zero.mp h0

theorem escape_unescaped (s : String) (mode : encoding) (h : unescaped s mode = true) :
    escape s mode = s := by
  have key : ∀ l : List Char,
      (l.all (fun c => decide (c.toNat < 0x80) && !shouldEscape c.toNat mode)) = true →
      (l.flatMap utf8Encode).flatMap (fun c : Byte =>
        if shouldEscape c.val mode then ['%', upperhex (c.val / 16), upperhex (c.val % 16)]
        else [Char.ofNat c.val]) = l := by
    intro l
    induction l with
    | nil => intro _; rfl
    | cons c cs ih =>
      intro hl
      simp only [List.all_cons, Bool.and_eq_true, decide_eq_true_eq, Bool.not_eq_true'] at hl
      obtain ⟨⟨h1, h2⟩, h3⟩ := hl
      have hu : utf8Encode c = [byteOf c.toNat] := by
        unfold utf8Encode
        simp [h1]
      have hb : (byteOf c.toNat).val = c.toNat := by
        show c.toNat % 256 = c.toNat
        omega
      simp only [List.flatMap_cons, hu, List.cons_append, List.nil_append, hb, h2,
        Bool.false_eq_true, if_false]
      rw [ih (by simpa using h3)]
      simp [Char.ofNat_toNat]
  unfold escape bytesOfString
  rw [key s.data h]

theorem URL_String_of_host (u : URL) (hs : u.Scheme ≠ "") (hh : u.Host ≠ "") :
    u.String = u.Scheme ++ ":" ++ "//" ++ escape u.Host .encodeHost ++
      (if u.EscapedPath ≠ "" ∧ u.EscapedPath.data.head? ≠ some '/' then "/" else "") ++
      u.EscapedPath := by
  have hne : u.Scheme ++ ":" ++ "//" ++ escape u.Host .encodeHost ≠ "" := by
    simp only [String.append_assoc]
    exact String_append_ne_empty_left _ _ hs
  unfold URL.String
  simp only [hs, hh, ne_eq, not_false_eq_true, if_true, true_or, and_true]
  by_cases hp : ¬u.EscapedPath = "" ∧ ¬u.EscapedPath.data.head? = some '/'
  · simp only [hp, and_self, not_false_eq_true, if_true]
    rw [if_neg]
    intro hcon
    exact String_append_ne_empty_left _ _ hne hcon.1
  · simp only [hp, if_false, String.append_empty]
    rw [if_neg]
    intro hcon
    exact hne hcon.1

theorem endpoint_Scheme_ne (c : Client) (p : String) : (c.endpoint p).Scheme ≠ "" := by
  unfold Client.endpoint
  cases c.Secure <;> by_cases h : c.Host = "" <;> simp [h]

theorem endpoint_Host_ne (c : Client) (p : String) : (c.endpoint p).Host ≠ "" := by
  unfold Client.endpoint
  cases c.Secure <;> by_cases h : c.Host = "" <;> simp [h, DefaultHost]

theorem endpoint_fields (c : Client) (p : String) :
    (c.endpoint p).Scheme = (if c.Secure then "https" else "http") ∧
      (c.endpoint p).Host = (if c.Host = "" then "api.postmarkapp.com" else c.Host) ∧
      (c.endpoint p).Path = p := by
  unfold Client.endpoint
  cases c.Secure <;> by_cases h : c.Host = "" <;> simp [h, DefaultHost]

theorem endpoint_String (c : Client) (p : String) :
    (c.endpoint p).String = (c.endpoint p).Scheme ++ ":" ++ "//" ++
      escape (c.endpoint p).Host .encodeHost ++
      (if (c.endpoint p).EscapedPath ≠ "" ∧ (c.endpoint p).EscapedPath.data.head? ≠ some '/'
        then "/" else "") ++ (c.endpoint p).EscapedPath :=
  URL_String_of_host _ (endpoint_Scheme_ne c p) (endpoint_Host_ne c p)

theorem EscapedPath_unescaped (u : URL) (h : unescaped u.Path .encodePath = true) :
    u.EscapedPath = u.Path := by
  unfold URL.EscapedPath
  split
  · rename_i hs
    rw [hs] at h
    exact absurd h (by decide)
  · exact escape_unescaped _ _ h

/-- C10 (counterexample): the empty path is rendered without a slash after the host, a path that
begins with a slash gets no second one, and a character that a URL path cannot hold is
percent-escaped: the rendering is not always scheme, `://`, host, `/`, path. -/
theorem endpoint_rendering_not_always_slash_path :
    (Client.endpoint Example.client "").String = "https://api.postmarkapp.com" ∧
      (Client.endpoint Example.client "").String ≠
        "https" ++ "://" ++ "api.postmarkapp.com" ++ "/" ++ "" ∧
      (Client.endpoint Example.client "/email").String = "https://api.postmarkapp.com/email" ∧
      (Client.endpoint Example.client "/email").String ≠
        "https" ++ "://" ++ "api.postmarkapp.com" ++ "/" ++ "/email" ∧
      (Client.endpoint Example.client "a b").String = "https://api.postmarkapp.com/a%20b" ∧
      (Client.endpoint Example.client "a b").String ≠
        "https" ++ "://" ++ "api.postmarkapp.com" ++ "/" ++ "a b" := by
  decide

/-- C10 (amended): `c.endpoint(p)` is the URL whose scheme is `https` when `c.Secure` is true and
`http` otherwise, whose host is `c.Host` when that is non-empty and `api.postmarkapp.com`
otherwise, and whose path is `p`; it does not depend on `c.ApiKey`. It is rendered as
scheme, `://`, host, `/`, `p` when `p` is non-empty, does not begin with `/`, and host and `p` hold
only characters that need no percent-escape; for the empty path it is rendered as scheme, `://`,
host. `Client{ApiKey:"k", Secure:true}.endpoint("email")` is rendered as
`https://api.postmarkapp.com/email`. -/
theorem endpoint_url (c : Client) (p : String) :
    (c.endpoint p).Scheme = (if c.Secure then "https" else "http") ∧
      (c.endpoint p).Host = (if c.Host = "" then "api.postmarkapp.com" else c.Host) ∧
      (c.endpoint p).Path = p ∧
      (∀ k : String, Client.endpoint { c with ApiKey := k } p = c.endpoint p) ∧
      (p ≠ "" → p.data.head? ≠ some '/' → unescaped p .encodePath = true →
        unescaped (c.endpoint p).Host .encodeHost = true →
        (c.endpoint p).String =
          (c.endpoint p).Scheme ++ "://" ++ (c.endpoint p).Host ++ "/" ++ p) ∧
      (p = "" → unescaped (c.endpoint p).Host .encodeHost = true →
        (c.endpoint p).String = (c.endpoint p).Scheme ++ "://" ++ (c.endpoint p).Host) ∧
      (Client.endpoint { ApiKey := "k", Secure := true } "email").String
        = "https://api.postmarkapp.com/email" := by
  obtain ⟨h1, h2, h3⟩ := endpoint_fields c p
  refine ⟨h1, h2, h3, fun k => rfl, ?_, ?_, by decide⟩
  · intro hp hslash hu hhost
    have he : (c.endpoint p).EscapedPath = p := by
      have := EscapedPath_unescaped (c.endpoint p) (by rw [h3]; exact hu)
      rw [this, h3]
    rw [endpoint_String, he, escape_unescaped _ _ hhost]
    simp only [ne_eq, hp, not_false_eq_true, hslash, and_self, if_true]
    apply String.ext
    simp only [String.data_append, List.append_assoc]
    rfl
  · intro hp hhost
    subst hp
    have he : (c.endpoint "").EscapedPath = "" := by
      have := EscapedPath_unescaped (c.endpoint "") (by rw [h3]; decide)
      rw [this, h3]
    rw [endpoint_String, he, escape_unescaped _ _ hhost]
    simp only [ne_eq, not_true_eq_false, false_and, if_false, String.append_empty]
    apply String.ext
    simp only [String.data_append, List.append_assoc]
    rfl


/-! ## Decoding a Result -/

theorem fieldFor_of_mem (k : String) (hk : k ∈ Result.fields) : Result.fieldFor k = some k := by
  unfold Result.fieldFor
  rw [if_pos]
  simpa using hk

theorem store_get_other (r : Result) (f k : String) (v : Json) (hf : f ∈ Result.fields)
    (hk : k ∈ Result.fields) (hne : k ≠ f) : ((r.store k v).1).get f = r.get f := by
  simp only [Result.fields, List.mem_cons, List.mem_singleton, List.not_mem_nil, or_false] at hf hk
  rcases hf with rfl | rfl | rfl | rfl | rfl <;> rcases hk with rfl | rfl | rfl | rfl | rfl <;>
    first
    | exact absurd rfl hne
    | (cases v <;> simp [Result.store, Result.get] <;> split <;> rfl)

theorem store_get_self (r : Result) (f : String) (v : Json) (hf : f ∈ Result.fields)
    (ha : Result.accepts f v = true) : ((r.store f v).1).get f = v := by
  simp only [Result.fields, List.mem_cons, List.mem_singleton, List.not_mem_nil, or_false] at hf
  rcases hf with rfl | rfl | rfl | rfl | rfl <;> cases v <;>
    simp [Result.accepts] at ha <;> simp [Result.store, Result.get, ha]

theorem storeMembers_get_absent (ms : List (String × Json)) (r : Result) (saved : Option GoError)
    (f : String) (hf : f ∈ Result.fields)
    (hshape : ∀ kv ∈ ms, kv.1 ∈ Result.fields ∨ Result.fieldFor kv.1 = none)
    (habs : f ∉ ms.map Prod.fst) : ((r.storeMembers saved ms).1).get f = r.get f := by
  induction ms generalizing r saved with
  | nil => rfl
  | cons kv rest ih =>
    obtain ⟨k, v⟩ := kv
    have hrest : ∀ kv ∈ rest, kv.1 ∈ Result.fields ∨ Result.fieldFor kv.1 = none :=
      fun y hy => hshape y (List.mem_cons_of_mem _ hy)
    have habs2 : f ∉ rest.map Prod.fst := fun h => habs (by simp [h])
    have hkf : k ≠ f := fun h => habs (by simp [h])
    rcases hshape (k, v) (List.mem_cons_self _ _) with hk | hk
    · simp only [Result.storeMembers, fieldFor_of_mem k hk]
      rw [ih _ _ hrest habs2]
      exact store_get_other r f k v hf hk hkf
    · simp only at hk
      simp only [Result.storeMembers, hk]
      exact ih _ _ hrest habs2

theorem storeMembers_get_present (ms : List (String × Json)) (r : Result)
    (saved : Option GoError) (f : String) (hf : f ∈ Result.fields) (v : Json)
    (hnodup : (ms.map Prod.fst).Nodup)
    (hshape : ∀ kv ∈ ms, kv.1 ∈ Result.fields ∨ Result.fieldFor kv.1 = none)
    (hmem : (f, v) ∈ ms) (ha : Result.accepts f v = true) :
    ((r.storeMembers saved ms).1).get f = v := by
  induction ms generalizing r saved with
  | nil => cases hmem
  | cons kv rest ih =>
    obtain ⟨k, w⟩ := kv
    have hrest : ∀ kv ∈ rest, kv.1 ∈ Result.fields ∨ Result.fieldFor kv.1 = none :=
      fun y hy => hshape y (List.mem_cons_of_mem _ hy)
    simp only [List.map_cons, List.nodup_cons] at hnodup
    obtain ⟨hknot, hnd⟩ := hnodup
    rcases List.mem_cons.mp hmem with heq | htail
    · simp only [Prod.mk.injEq] at heq
      obtain ⟨rfl, rfl⟩ := heq
      simp only [Result.storeMembers, fieldFor_of_mem f hf]
      rw [storeMembers_get_absent rest _ _ f hf hrest hknot]
      exact store_get_self r f v hf ha
    · have hkf : k ≠ f := by
        intro h
        apply hknot
        rw [h]
        exact List.mem_map_of_mem Prod.fst htail
      rcases hshape (k, w) (List.mem_cons_self _ _) with hk | hk
      · simp only [Result.storeMembers, fieldFor_of_mem k hk]
        exact ih _ _ hnd hrest htail
      · simp only at hk
        simp only [Result.storeMembers, hk]
        exact ih _ _ hnd hrest htail

theorem unmarshalResult_carries (ms : List (String × Json)) (h : ResultShaped ms) :
    Result.Carries ms (unmarshalResult (.obj ms) {}).1 := by
  obtain ⟨hnodup, hshape⟩ := h
  have hp : ∀ f v, f ∈ Result.fields → (f, v) ∈ ms → Result.accepts f v = true →
      ((unmarshalResult (.obj ms) {}).1).get f = v := fun f v hf hm ha =>
    storeMembers_get_present ms {} none f hf v hnodup hshape hm ha
  have ha : ∀ f, f ∈ Result.fields → f ∉ ms.map Prod.fst →
      ((unmarshalResult (.obj ms) {}).1).get f = ({} : Result).get f := fun f hf hm =>
    storeMembers_get_absent ms {} none f hf hshape hm
  refine ⟨?_, ?_, ?_, ?_, ?_, ?_, ?_, ?_, ?_, ?_⟩
  · intro n hm hn
    have := hp "ErrorCode" (.num n) (by decide) hm (by simp [Result.accepts, hn])
    simpa [Result.get] using this
  · intro s hm
    have := hp "Message" (.str s) (by decide) hm (by simp [Result.accepts])
    simpa [Result.get] using this
  · intro s hm
    have := hp "MessageID" (.str s) (by decide) hm (by simp [Result.accepts])
    simpa [Result.get] using this
  · intro s hm
    have := hp "SubmittedAt" (.str s) (by decide) hm (by simp [Result.accepts])
    simpa [Result.get] using this
  · intro s hm
    have := hp "To" (.str s) (by decide) hm (by simp [Result.accepts])
    simpa [Result.get] using this
  · intro hm
    have := ha "ErrorCode" (by decide) hm
    simpa [Result.get] using this
  · intro hm
    have := ha "Message" (by decide) hm
    simpa [Result.get] using this
  · intro hm
    have := ha "MessageID" (by decide) hm
    simpa [Result.get] using this
  · intro hm
    have := ha "SubmittedAt" (by decide) hm
    simpa [Result.get] using this
  · intro hm
    have := ha "To" (by decide) hm
    simpa [Result.get] using this

theorem unmarshalResult_not_object (j : Json) (h : ∀ ms, j ≠ .obj ms) :
    (unmarshalResult j {}).1 = {} := by
  cases j with
  | obj ms => exact absurd rfl (h ms)
  | _ => rfl


/-! ## `Send` -/

theorem endpoint_email_String (c : Client) :
    (c.endpoint "email").String =
      (c.endpoint "email").Scheme ++ ":" ++ "//" ++ escape (c.endpoint "email").Host .encodeHost
        ++ "/" ++ "email" := by
  have he : (c.endpoint "email").EscapedPath = "email" := by
    rw [EscapedPath_unescaped _ (by rw [(endpoint_fields c _).2.2]; decide),
      (endpoint_fields c _).2.2]
  rw [endpoint_String, he]
  rfl

theorem endpoint_template_String (c : Client) :
    (c.endpoint "email/withTemplate").String =
      (c.endpoint "email").Scheme ++ ":" ++ "//" ++ escape (c.endpoint "email").Host .encodeHost
        ++ "/" ++ "email/withTemplate" := by
  have he : (c.endpoint "email/withTemplate").EscapedPath = "email/withTemplate" := by
    rw [EscapedPath_unescaped _ (by rw [(endpoint_fields c _).2.2]; decide),
      (endpoint_fields c _).2.2]
  rw [endpoint_String, he]
  rfl

theorem endpoint_email_ne_template (c : Client) :
    (c.endpoint "email").String ≠ (c.endpoint "email/withTemplate").String := by
  rw [endpoint_email_String, endpoint_template_String]
  intro h
  have h1 := congrArg String.data h
  simp only [String.data_append] at h1
  have h2 := List.append_cancel_left h1
  exact absurd h2 (by decide)

theorem sendURL_eq (c : Client) (msg : Message) :
    c.sendURL msg = c.endpoint (if msg.TemplateId ≠ 0 then "email/withTemplate" else "email") := by
  unfold Client.sendURL
  by_cases h : msg.TemplateId = 0 <;> simp [h]

theorem Send_eq (rt : Runtime) (net : Network) (c : Client) (msg : Message) :
    Client.Send rt net c msg =
      match EncodeMessage rt (some msg) with
      | .err e => ⟨[], .err e⟩
      | .panicked s => ⟨[], .panicked s⟩
      | .ret buf =>
        match NewRequest net "POST" (c.sendURL msg).String buf with
        | .err e => ⟨[], .err e⟩
        | .panicked s => ⟨[], .panicked s⟩
        | .ret req =>
          match net.Do (setHeaders req c.ApiKey) with
          | .error e => ⟨[setHeaders req c.ApiKey], .err e⟩
          | .ok resp =>
            ⟨[setHeaders req c.ApiKey],
              .ret (Decode resp.Body unmarshalResult "*postmark.Result" (.pointer {})).1⟩ := rfl

theorem NewRequest_eq (net : Network) (method url : String) (body : Json) :
    NewRequest net method url body =
      match net.Parse url with
      | some e => .err e
      | none => .ret { Method := method, URL := url, Body := body } := rfl

/-- C7 (counterexample): `Send` does not post for every client. The client `Client{Host: "a b"}`
and a message with `TemplateId` 7 that marshals successfully select the URL
`http://a%20b/email/withTemplate`; `url.Parse` inside `http.NewRequest` refuses the escape `%20`
in the host, and `Send` returns that error without handing any request to the HTTP client: no
request is posted to the template endpoint although `TemplateId` is not 0. -/
theorem send_posts_nothing_when_url_refused :
    EncodeMessage Example.rt (some Example.templated) = .ret Example.templatedDoc ∧
      Example.templated.TemplateId ≠ 0 ∧
      (Example.spacedHost.endpoint "email/withTemplate").String
        = "http://a%20b/email/withTemplate" ∧
      Example.parsingNet.Parse "http://a%20b/email/withTemplate"
        = some (.newRequest "invalid URL escape \"%20\"") ∧
      Example.parsingNet.Parse "https://api.postmarkapp.com/email/withTemplate" = none ∧
      (Client.Send Example.rt Example.parsingNet Example.spacedHost Example.templated).requests
        = [] ∧
      (Client.Send Example.rt Example.parsingNet Example.spacedHost Example.templated).result
        = .err (.newRequest "invalid URL escape \"%20\"") ∧
      (Client.Send Example.rt Example.parsingNet Example.client Example.templated).requests.map
        (fun r => (r.Method, r.URL))
        = [("POST", "https://api.postmarkapp.com/email/withTemplate")] := by
  refine ⟨rfl, by decide, by decide, by decide, by decide, rfl, by decide, by decide⟩

/-- C7 (amended): for a message that marshals successfully, the URL for which `Send` builds its
POST request is the template endpoint (path `email/withTemplate`) if and only if `TemplateId` is
not 0, and the plain endpoint (path `email`) if and only if `TemplateId` is 0; scheme and host of
that URL are those of the client whatever `TemplateId` is. When `http.NewRequest` accepts the URL,
`Send` hands exactly that one request to the HTTP client; when it refuses the URL, `Send` returns
the error and posts nothing. -/
theorem send_routes_by_template_id (rt : Runtime) (net : Network) (c : Client) (msg : Message)
    (buf : Json) (h : EncodeMessage rt (some msg) = .ret buf) :
    ((c.sendURL msg).Path = "email/withTemplate" ↔ msg.TemplateId ≠ 0) ∧
      ((c.sendURL msg).Path = "email" ↔ msg.TemplateId = 0) ∧
      (c.sendURL msg = c.endpoint "email/withTemplate" ↔ msg.TemplateId ≠ 0) ∧
      (c.sendURL msg = c.endpoint "email" ↔ msg.TemplateId = 0) ∧
      (c.sendURL msg).Scheme = (if c.Secure then "https" else "http") ∧
      (c.sendURL msg).Host = (if c.Host = "" then DefaultHost else c.Host) ∧
      (Client.Send rt net c msg).requests =
        (match net.Parse (c.sendURL msg).String with
          | none =>
            [setHeaders { Method := "POST", URL := (c.sendURL msg).String, Body := buf } c.ApiKey]
          | some _ => []) ∧
      (∀ req ∈ (Client.Send rt net c msg).requests,
        req.Method = "POST" ∧ req.Body = buf ∧
        (req.URL = (c.endpoint "email/withTemplate").String ↔ msg.TemplateId ≠ 0) ∧
        (req.URL = (c.endpoint "email").String ↔ msg.TemplateId = 0)) ∧
      (net.Parse (c.sendURL msg).String = none →
        ∃ req, (Client.Send rt net c msg).requests = [req] ∧ req.Method = "POST" ∧
          req.URL = (c.sendURL msg).String) ∧
      (∀ e, net.Parse (c.sendURL msg).String = some e →
        (Client.Send rt net c msg).requests = [] ∧ (Client.Send rt net c msg).result = .err e) := by
  have hreq : (Client.Send rt net c msg).requests =
      (match net.Parse (c.sendURL msg).String with
        | none =>
          [setHeaders { Method := "POST", URL := (c.sendURL msg).String, Body := buf } c.ApiKey]
        | some _ => []) := by
    rw [Send_eq, h]
    dsimp only
    rw [NewRequest_eq]
    cases net.Parse (c.sendURL msg).String with
    | some e => rfl
    | none =>
      dsimp only
      cases net.Do (setHeaders { Method := "POST", URL := (c.sendURL msg).String, Body := buf }
        c.ApiKey) <;> rfl
  have hne := endpoint_email_ne_template c
  have hurl : c.endpoint "email/withTemplate" ≠ c.endpoint "email" := by
    intro hcon
    exact hne (by rw [hcon])
  refine ⟨?_, ?_, ?_, ?_, ?_, ?_, hreq, ?_, ?_, ?_⟩
  · rw [sendURL_eq, (endpoint_fields c _).2.2]
    by_cases h0 : msg.TemplateId = 0 <;> simp [h0]
  · rw [sendURL_eq, (endpoint_fields c _).2.2]
    by_cases h0 : msg.TemplateId = 0 <;> simp [h0]
  · rw [sendURL_eq]
    by_cases h0 : msg.TemplateId = 0 <;> simp [h0]
    exact hurl.symm
  · rw [sendURL_eq]
    by_cases h0 : msg.TemplateId = 0 <;> simp [h0]
    exact hurl
  · rw [sendURL_eq]
    exact (endpoint_fields c _).1
  · rw [sendURL_eq]
    exact (endpoint_fields c _).2.1
  · intro req hmem
    rw [hreq] at hmem
    cases hp : net.Parse (c.sendURL msg).String with
    | some e => rw [hp] at hmem; simp at hmem
    | none =>
      rw [hp] at hmem
      simp only [List.mem_singleton] at hmem
      subst hmem
      refine ⟨rfl, rfl, ?_, ?_⟩
      · show (c.sendURL msg).String = _ ↔ _
        rw [sendURL_eq]
        by_cases h0 : msg.TemplateId = 0 <;> simp [h0]
        exact hne
      · show (c.sendURL msg).String = _ ↔ _
        rw [sendURL_eq]
        by_cases h0 : msg.TemplateId = 0 <;> simp [h0]
        exact hne.symm
  · intro hp
    rw [hreq, hp]
    exact ⟨_, rfl, rfl, rfl⟩
  · intro e hp
    refine ⟨by rw [hreq, hp], ?_⟩
    rw [Send_eq, h]
    dsimp only
    rw [NewRequest_eq, hp]

/-- C7 (amended), at a message with `TemplateId` 7 and at one with `TemplateId` 0. -/
theorem send_routes_by_template_id_witness :
    EncodeMessage Example.rt (some Example.templated) = .ret Example.templatedDoc ∧
      (Client.Send Example.rt Example.net Example.client Example.templated).requests.map
        (fun r => (r.Method, r.URL)) = [("POST", "https://api.postmarkapp.com/email/withTemplate")] ∧
      (Client.Send Example.rt Example.net Example.client Example.scenario).requests.map
        (fun r => (r.Method, r.URL)) = [("POST", "https://api.postmarkapp.com/email")] ∧
      ((Example.client.sendURL Example.templated).Path = "email/withTemplate" ↔
        Example.templated.TemplateId ≠ 0) :=
  ⟨rfl, by decide, by decide,
    (send_routes_by_template_id Example.rt Example.net Example.client Example.templated
      Example.templatedDoc rfl).1⟩

theorem unmarshalResult_toJson (r : Result) (h : fitsInt r.ErrorCode = true) :
    unmarshalResult r.toJson {} = (r, none) := by
  have f1 : Result.fieldFor "ErrorCode" = some "ErrorCode" := by decide
  have f2 : Result.fieldFor "Message" = some "Message" := by decide
  have f3 : Result.fieldFor "MessageID" = some "MessageID" := by decide
  have f4 : Result.fieldFor "SubmittedAt" = some "SubmittedAt" := by decide
  have f5 : Result.fieldFor "To" = some "To" := by decide
  have n1 : ("MessageID" : String) ≠ "Message" := by decide
  have n2 : ("SubmittedAt" : String) ≠ "Message" := by decide
  have n3 : ("SubmittedAt" : String) ≠ "MessageID" := by decide
  have n4 : ("To" : String) ≠ "Message" := by decide
  have n5 : ("To" : String) ≠ "MessageID" := by decide
  have n6 : ("To" : String) ≠ "SubmittedAt" := by decide
  unfold unmarshalResult Result.toJson
  simp only [Result.storeMembers, f1, f2, f3, f4, f5, Result.store, h, if_true, saveError, n1, n2,
    n3, n4, n5, n6, if_false]

/-- C8: `Send` returns a non-nil error only when marshalling the message, building the request or
the HTTP round trip fails, and then it is the error of that step. When the three succeed, `Send`
returns a nil error and a Result whatever the status and the body of the response: the zero Result
when the body holds no JSON value or a JSON value that is not an object; and for a body that is a
JSON object in the shape of a Result, whatever the order of its members and whichever of them it
has, a Result that carries the `ErrorCode`, `Message`, `MessageID`, `SubmittedAt` and `To` of the
body, in particular the Result itself for the JSON object of a Result. -/
theorem send_error_only_from_marshal_request_transport (rt : Runtime) (net : Network) (c : Client)
    (msg : Message) :
    (∀ e, (Client.Send rt net c msg).result = .err e →
      EncodeMessage rt (some msg) = .err e ∨
      ∃ buf, EncodeMessage rt (some msg) = .ret buf ∧
        (NewRequest net "POST" (c.sendURL msg).String buf = .err e ∨
          ∃ req, NewRequest net "POST" (c.sendURL msg).String buf = .ret req ∧
            net.Do (setHeaders req c.ApiKey) = .error e)) ∧
    (∀ buf req resp, EncodeMessage rt (some msg) = .ret buf →
      NewRequest net "POST" (c.sendURL msg).String buf = .ret req →
      net.Do (setHeaders req c.ApiKey) = .ok resp →
      ∃ res : Result, (Client.Send rt net c msg).result = .ret res ∧
        (resp.Body = .malformed → res = {}) ∧
        (∀ j, resp.Body = .value j → (∀ ms, j ≠ .obj ms) → res = {}) ∧
        (∀ ms, resp.Body = .value (.obj ms) → ResultShaped ms → Result.Carries ms res) ∧
        (∀ r : Result, fitsInt r.ErrorCode = true → resp.Body = .value r.toJson → res = r)) := by
  constructor
  · intro e he
    rw [Send_eq] at he
    cases hE : EncodeMessage rt (some msg) with
    | err e1 =>
      rw [hE] at he
      simp only [Outcome.err.injEq] at he
      left; rw [he]
    | panicked s => rw [hE] at he; simp at he
    | ret buf =>
      rw [hE] at he
      dsimp only at he
      right
      refine ⟨buf, rfl, ?_⟩
      cases hN : NewRequest net "POST" (c.sendURL msg).String buf with
      | err e1 =>
        rw [hN] at he
        simp only [Outcome.err.injEq] at he
        left; rw [he]
      | panicked s => rw [hN] at he; simp at he
      | ret req =>
        rw [hN] at he
        dsimp only at he
        right
        refine ⟨req, rfl, ?_⟩
        cases hD : net.Do (setHeaders req c.ApiKey) with
        | error e1 =>
          rw [hD] at he
          simp only [Outcome.err.injEq] at he
          rw [he]
        | ok resp => rw [hD] at he; simp at he
  · intro buf req resp hE hN hD
    refine ⟨(Decode resp.Body unmarshalResult "*postmark.Result" (.pointer {})).1,
      ?_, ?_, ?_, ?_, ?_⟩
    · rw [Send_eq, hE]
      simp only [hN, hD]
    · intro hb
      rw [hb]
      rfl
    · intro j hb hj
      rw [hb]
      exact unmarshalResult_not_object j hj
    · intro ms hb hs
      rw [hb]
      exact unmarshalResult_carries ms hs
    · intro r hr hb
      rw [hb]
      show (unmarshalResult r.toJson {}).1 = r
      rw [unmarshalResult_toJson r hr]

theorem vendorMembers_shaped : ResultShaped Example.vendorMembers := by
  refine ⟨by decide, ?_⟩
  intro kv hkv
  simp only [Example.vendorMembers, List.mem_cons, List.mem_singleton, List.not_mem_nil,
    or_false] at hkv
  rcases hkv with rfl | rfl | rfl | rfl | rfl | rfl <;> decide

theorem tokenMembers_shaped : ResultShaped Example.tokenMembers := by
  refine ⟨by decide, ?_⟩
  intro kv hkv
  simp only [Example.tokenMembers, List.mem_cons, List.mem_singleton, List.not_mem_nil,
    or_false] at hkv
  rcases hkv with rfl | rfl <;> decide

/-- C8, at a response with status 422 whose body is a JSON object with the members of a Result in
another order and one more member, and at a body with two of the members only. -/
theorem send_error_only_from_marshal_request_transport_witness :
    (Client.Send Example.rt Example.vendorNet Example.client Example.scenario).result
        = .ret Example.result2 ∧
      (unmarshalResult (.obj Example.tokenMembers) {}).1
        = { ErrorCode := 10, Message := "Bad or missing API token." } ∧
      ResultShaped Example.vendorMembers ∧ ResultShaped Example.tokenMembers ∧
      Result.Carries Example.vendorMembers Example.result2 := by
  have hres : (Client.Send Example.rt Example.vendorNet Example.client Example.scenario).result
      = .ret Example.result2 := by decide
  refine ⟨hres, by decide, vendorMembers_shaped, tokenMembers_shaped, ?_⟩
  obtain ⟨res, h1, -, -, hc, -⟩ :=
    (send_error_only_from_marshal_request_transport Example.rt Example.vendorNet Example.client
      Example.scenario).2 Example.scenarioDoc
      { Method := "POST", URL := "https://api.postmarkapp.com/email", Body := Example.scenarioDoc }
      { StatusCode := 422, Body := .value (.obj Example.vendorMembers) } rfl rfl rfl
  rw [hres] at h1
  injection h1 with h1
  subst h1
  exact hc Example.vendorMembers rfl vendorMembers_shaped


/-! ## Read errors -/

theorem exists_map_some (l : List (Option Address)) (h : ∀ x ∈ l, x ≠ none) :
    ∃ as : List Address, l = as.map some := by
  induction l with
  | nil => exact ⟨[], rfl⟩
  | cons x rest ih =>
    obtain ⟨as, has⟩ := ih (fun y hy => h y (List.mem_cons_of_mem _ hy))
    cases x with
    | none => exact absurd rfl (h none (List.mem_cons_self _ _))
    | some a => exact ⟨a :: as, by simp [has]⟩

theorem mapMembers_ret (l : List (String × GoValue)) (h : ∀ kv ∈ l, ∃ j, kv.2 = .json j) :
    ∃ ms, mapMembers l = .ret ms := by
  induction l with
  | nil => exact ⟨[], rfl⟩
  | cons kv rest ih =>
    obtain ⟨ms, hms⟩ := ih (fun y hy => h y (List.mem_cons_of_mem _ hy))
    obtain ⟨j, hj⟩ := h kv (List.mem_cons_self _ _)
    obtain ⟨k, v⟩ := kv
    simp only at hj
    subst hj
    exact ⟨(k, j) :: ms, by simp [mapMembers, hms]⟩

theorem mapEncoder_ret (m : Option (List (String × GoValue)))
    (h : ∀ kv ∈ m.getD [], ∃ j, kv.2 = .json j) : ∃ tm, mapEncoder m = .ret tm := by
  cases m with
  | none => exact ⟨.null, rfl⟩
  | some kvs =>
    have h2 : ∀ kv ∈ kvs.insertionSort (fun a b => a.1 ≤ b.1), ∃ j, kv.2 = .json j := by
      intro kv hkv
      exact h kv ((List.perm_insertionSort _ kvs).mem_iff.mp hkv)
    obtain ⟨ms, hms⟩ := mapMembers_ret _ h2
    exact ⟨.obj ms, by simp only [mapEncoder, hms]⟩

theorem attachmentDocs_cases (l : List Attachment) (h : ∀ att ∈ l, att.Content ≠ none) :
    (∀ e, ((l.filterMap (fun a => a.Content)).filterMap (fun r => r.err)).head? = some e →
      attachmentDocs l = .err (.marshaler "postmark.Attachment" e)) ∧
    (((l.filterMap (fun a => a.Content)).filterMap (fun r => r.err)).head? = none →
      ∃ js, attachmentDocs l = .ret js) := by
  induction l with
  | nil =>
    constructor
    · intro e he; simp at he
    · intro _; exact ⟨[], rfl⟩
  | cons a rest ih =>
    obtain ⟨ih1, ih2⟩ := ih (fun y hy => h y (List.mem_cons_of_mem _ hy))
    have ha := h a (List.mem_cons_self _ _)
    cases hc : a.Content with
    | none => exact absurd hc ha
    | some r =>
      cases hr : r.err with
      | some e1 =>
        have hm : a.MarshalJSON = .err e1 := by
          unfold Attachment.MarshalJSON
          simp [hc, ReadAll, hr]
        constructor
        · intro e he
          simp only [List.filterMap_cons, hc, hr, List.head?_cons, Option.some.injEq] at he
          subst he
          simp [attachmentDocs, hm]
        · intro he
          simp [List.filterMap_cons, hc, hr] at he
      | none =>
        have hm := Attachment_MarshalJSON_of_read a r.data (by simp [hc, ReadAll, hr])
        constructor
        · intro e he
          simp only [List.filterMap_cons, hc, hr] at he
          simp [attachmentDocs, hm, ih1 e he]
        · intro he
          simp only [List.filterMap_cons, hc, hr] at he
          obtain ⟨js, hjs⟩ := ih2 he
          exact ⟨.obj [("Name", .str a.Name), ("Content", .str (base64.EncodeToString r.data)),
            ("ContentType", .str a.ContentType)] :: js, by simp only [attachmentDocs, hm, hjs]⟩

theorem attachmentsEncoder_cases (as : Option (List Attachment))
    (h : ∀ att ∈ as.getD [], att.Content ≠ none) :
    (∀ e, (((as.getD []).filterMap (fun a => a.Content)).filterMap (fun r => r.err)).head?
        = some e → attachmentsEncoder as = .err (.marshaler "postmark.Attachment" e)) ∧
    ((((as.getD []).filterMap (fun a => a.Content)).filterMap (fun r => r.err)).head? = none →
      ∃ j, attachmentsEncoder as = .ret j) := by
  cases as with
  | none =>
    constructor
    · intro e he; simp at he
    · intro _; exact ⟨.null, rfl⟩
  | some l =>
    obtain ⟨h1, h2⟩ := attachmentDocs_cases l h
    constructor
    · intro e he
      simp [attachmentsEncoder, h1 e he]
    · intro he
      obtain ⟨js, hjs⟩ := h2 he
      exact ⟨.arr js, by simp [attachmentsEncoder, hjs]⟩

theorem readBody_cases (b : Option Reader) :
    (∀ e, (b.toList.filterMap (fun r => r.err)).head? = some e → readBody b = .err e) ∧
    ((b.toList.filterMap (fun r => r.err)) = [] → ∃ s, readBody b = .ret s) := by
  cases b with
  | none =>
    constructor
    · intro e he; simp at he
    · intro _; exact ⟨"", rfl⟩
  | some r =>
    cases hr : r.err with
    | some e1 =>
      constructor
      · intro e he
        simp only [Option.toList, List.filterMap_cons, hr, List.head?_cons,
          Option.some.injEq] at he
        subst he
        simp [readBody, ReadAll, hr]
      · intro he
        simp [Option.toList, hr] at he
    | none =>
      constructor
      · intro e he
        simp [Option.toList, hr] at he
      · intro _
        exact ⟨stringOfBytes r.data, by simp [readBody, ReadAll, hr]⟩

theorem MarshalJSON_total (rt : Runtime) (m : Message) (a : Address)
    (hF : m.From = some a)
    (hAddr : ∀ x ∈ m.To ++ m.Cc ++ m.Bcc, x ≠ none)
    (hTM : ∀ kv ∈ m.TemplateModel.getD [], ∃ j, kv.2 = .json j)
    (hC : ∀ att ∈ m.Attachments.getD [], att.Content ≠ none) :
    (∀ e, m.firstReadError = some e →
      ∃ err, m.MarshalJSON rt = .err err ∧ e ∈ err.chain) ∧
    (m.firstReadError = none → ∃ j, m.MarshalJSON rt = .ret j) := by
  obtain ⟨tos, hTo⟩ := exists_map_some m.To (fun x hx => hAddr x (by simp [hx]))
  obtain ⟨ccs, hCc⟩ := exists_map_some m.Cc (fun x hx => hAddr x (by simp [hx]))
  obtain ⟨bccs, hBcc⟩ := exists_map_some m.Bcc (fun x hx => hAddr x (by simp [hx]))
  obtain ⟨tm, htm⟩ := mapEncoder_ret m.TemplateModel hTM
  obtain ⟨hA1, hA2⟩ := attachmentsEncoder_cases m.Attachments hC
  obtain ⟨hH1, hH2⟩ := readBody_cases m.HtmlBody
  obtain ⟨hT1, hT2⟩ := readBody_cases m.TextBody
  have hfirst : m.firstReadError =
      (m.HtmlBody.toList.filterMap (fun r => r.err) ++
        (m.TextBody.toList.filterMap (fun r => r.err) ++
          ((m.Attachments.getD []).filterMap (fun a => a.Content)).filterMap
            (fun r => r.err))).head? := by
    unfold Message.firstReadError Message.streams
    simp [List.filterMap_append]
  have hpre : ∀ e, readBody m.HtmlBody = .err e → m.MarshalJSON rt = .err e := by
    intro e he
    unfold Message.MarshalJSON
    simp [hF, hTo, hCc, hBcc, ptrString, addrStrings_map_some, he]
  have hpre2 : ∀ s e, readBody m.HtmlBody = .ret s → readBody m.TextBody = .err e →
      m.MarshalJSON rt = .err e := by
    intro s e hs he
    unfold Message.MarshalJSON
    simp [hF, hTo, hCc, hBcc, ptrString, addrStrings_map_some, hs, he]
  cases hhl : m.HtmlBody.toList.filterMap (fun r => r.err) with
  | cons e1 rest1 =>
    have h1 := hH1 e1 (by rw [hhl]; rfl)
    constructor
    · intro e he
      rw [hfirst, hhl] at he
      simp only [List.cons_append, List.head?_cons, Option.some.injEq] at he
      subst he
      refine ⟨e1, hpre e1 h1, ?_⟩
      cases e1 <;> simp [GoError.chain]
    · intro he
      rw [hfirst, hhl] at he
      simp at he
  | nil =>
    obtain ⟨hs, hhs⟩ := hH2 hhl
    cases htl : m.TextBody.toList.filterMap (fun r => r.err) with
    | cons e1 rest1 =>
      have h1 := hT1 e1 (by rw [htl]; rfl)
      constructor
      · intro e he
        rw [hfirst, hhl, htl] at he
        simp only [List.nil_append, List.cons_append, List.head?_cons, Option.some.injEq] at he
        subst he
        refine ⟨e1, hpre2 hs e1 hhs h1, ?_⟩
        cases e1 <;> simp [GoError.chain]
      · intro he
        rw [hfirst, hhl, htl] at he
        simp at he
    | nil =>
      obtain ⟨ts, hts⟩ := hT2 htl
      have hM := @MarshalJSON_of_parts rt m a tos ccs bccs hs ts hF hTo hCc hBcc hhs hts
      rw [htm] at hM
      constructor
      · intro e he
        rw [hfirst, hhl, htl] at he
        simp only [List.nil_append] at he
        have hA := hA1 e he
        rw [hA] at hM
        refine ⟨_, hM, ?_⟩
        cases e <;> simp [GoError.chain]
      · intro he
        rw [hfirst, hhl, htl] at he
        simp only [List.nil_append] at he
        obtain ⟨j, hj⟩ := hA2 he
        rw [hj] at hM
        exact ⟨_, hM⟩


/-- C9 (counterexample): a read error is not always what comes back, and a message whose streams
all read well does not always marshal. Without `From`, or with a nil entry in `To`, a message whose
`HtmlBody` fails makes `MarshalJSON` panic before any stream is read; with `From` set and every
stream reading well, `MarshalJSON` returns an error when `TemplateModel` holds a value that JSON
cannot express, and panics when an attachment has no `Content`. -/
theorem read_error_not_always_returned :
    (Example.noFrom.firstReadError = some (.read "unexpected EOF") ∧
        Example.noFrom.MarshalJSON Example.rt = .panicked nilDeref) ∧
      (Example.nilRecipient.firstReadError = some (.read "unexpected EOF") ∧
        Example.nilRecipient.MarshalJSON Example.rt = .panicked nilDeref) ∧
      (Example.channelModel.From = some { Address := "a@x.com" } ∧
        Example.channelModel.firstReadError = none ∧
        Example.channelModel.MarshalJSON Example.rt = .err (.unsupportedType "chan int")) ∧
      (Example.nilContent.From = some { Address := "a@x.com" } ∧
        Example.nilContent.firstReadError = none ∧
        Example.nilContent.MarshalJSON Example.rt = .panicked nilDeref) :=
  ⟨⟨rfl, rfl⟩, ⟨rfl, rfl⟩, ⟨rfl, rfl, rfl⟩, ⟨rfl, rfl, rfl⟩⟩

/-- C9 (amended): for a message whose `From` is set, whose `To`, `Cc` and `Bcc` hold no nil entry,
whose `TemplateModel` holds only values JSON can express and whose attachments all have a
`Content`: if a stream fails, in the order `HtmlBody`, `TextBody`, attachments, then `MarshalJSON`
returns no bytes and an error that is, or wraps, the read error of the first stream that fails, and
`Send` returns a nil Result and an error wrapping it without handing any request to the HTTP
client; if every stream reads well, `MarshalJSON` returns no error. -/
theorem read_error_propagates (rt : Runtime) (net : Network) (c : Client) (m : Message)
    (a : Address) (hF : m.From = some a)
    (hAddr : ∀ x ∈ m.To ++ m.Cc ++ m.Bcc, x ≠ none)
    (hTM : ∀ kv ∈ m.TemplateModel.getD [], ∃ j, kv.2 = .json j)
    (hC : ∀ att ∈ m.Attachments.getD [], att.Content ≠ none) :
    (∀ e, m.firstReadError = some e →
      ∃ err, m.MarshalJSON rt = .err err ∧ e ∈ err.chain ∧
        (Client.Send rt net c m).result = .err (.marshaler "*postmark.Message" err) ∧
        e ∈ (GoError.marshaler "*postmark.Message" err).chain ∧
        (Client.Send rt net c m).requests = []) ∧
    (m.firstReadError = none → ∃ j, m.MarshalJSON rt = .ret j) := by
  obtain ⟨h1, h2⟩ := MarshalJSON_total rt m a hF hAddr hTM hC
  refine ⟨?_, h2⟩
  intro e he
  obtain ⟨err, herr, hmem⟩ := h1 e he
  have hE : EncodeMessage rt (some m) = .err (.marshaler "*postmark.Message" err) := by
    simp only [EncodeMessage, herr]
  refine ⟨err, herr, hmem, ?_, ?_, ?_⟩
  · rw [Send_eq, hE]
  · simp only [GoError.chain, List.mem_cons]
    exact Or.inr hmem
  · rw [Send_eq, hE]

/-- C9 (amended), at a message whose second attachment fails to read. -/
theorem read_error_propagates_witness :
    Example.failingAttachment.firstReadError = some (.read "unexpected EOF") ∧
      Example.failingAttachment.MarshalJSON Example.rt
        = .err (.marshaler "postmark.Attachment" (.read "unexpected EOF")) ∧
      (Client.Send Example.rt Example.net Example.client Example.failingAttachment).requests = [] ∧
      ((∀ e, Example.failingAttachment.firstReadError = some e →
        ∃ err, Example.failingAttachment.MarshalJSON Example.rt = .err err ∧ e ∈ err.chain ∧
          (Client.Send Example.rt Example.net Example.client Example.failingAttachment).result
            = .err (.marshaler "*postmark.Message" err) ∧
          e ∈ (GoError.marshaler "*postmark.Message" err).chain ∧
          (Client.Send Example.rt Example.net Example.client Example.failingAttachment).requests
            = []) ∧
      (Example.failingAttachment.firstReadError = none →
        ∃ j, Example.failingAttachment.MarshalJSON Example.rt = .ret j)) :=
  ⟨rfl, rfl, rfl,
    read_error_propagates Example.rt Example.net Example.client Example.failingAttachment
      { Address := "a@x.com" } rfl (by decide) (by simp [Example.failingAttachment])
      (by decide)⟩

end Postmark
